import Mathlib

/-!
Verification of the PodTranscript multi-format transcript extractor and search
engine.  The definitions below are a shallow embedding of the TypeScript
sources (`fileParser.ts`, the class `FileParser`, and `searchEngine.ts`, the
class `SearchEngine`).  JavaScript dynamic values are modelled by the `Json`
type, JavaScript numbers by `JSNum` (a rational or NaN; the claims under
verification only exercise parse-or-NaN behaviour, not rounding), and the
external browser facilities `JSON.parse`, `DOMParser`/`querySelectorAll` and
`JSZip` are treated as oracles: a payload carries the value those facilities
would return for it.  Thrown JavaScript exceptions are modelled with `Except`.
-/

namespace PodTranscript

/-- A JavaScript number: either NaN or an actual (rational) value. -/
inductive JSNum where
  | nan : JSNum
  | val (q : ℚ) : JSNum
  deriving DecidableEq, Repr

/-- Rational subtraction written with `mkRat` so that it evaluates by kernel
reduction (the `Sub ℚ` instance does not unfold). -/
def qSub (a b : ℚ) : ℚ := mkRat (a.num * b.den - b.num * a.den) (a.den * b.den)

/-- Rational addition written with `mkRat`, for the same reason as `qSub`. -/
def qAdd (a b : ℚ) : ℚ := mkRat (a.num * b.den + b.num * a.den) (a.den * b.den)

/-- The rational `n` as a `ℚ` value built by `mkRat`. -/
def qOfNat (n : ℕ) : ℚ := mkRat n 1

/-- Subtraction of JS numbers; any operation touching NaN yields NaN. -/
def jsSub : JSNum → JSNum → JSNum
  | JSNum.val a, JSNum.val b => JSNum.val (qSub a b)
  | _, _ => JSNum.nan

/-- Addition of JS numbers; any operation touching NaN yields NaN. -/
def jsAdd : JSNum → JSNum → JSNum
  | JSNum.val a, JSNum.val b => JSNum.val (qAdd a b)
  | _, _ => JSNum.nan

/-- A JavaScript value as it appears in parsed JSON documents plus the
`undefined` value produced by missing-property accesses. -/
inductive Json where
  | str (s : String) : Json
  | num (n : JSNum) : Json
  | bool (b : Bool) : Json
  | null : Json
  | undef : Json
  | arr (elems : List Json) : Json
  | obj (fields : List (String × Json)) : Json

/-- JavaScript truthiness: `undefined`, `null`, `false`, `0`, `NaN` and the
empty string are falsy; objects and arrays are always truthy. -/
def truthy : Json → Bool
  | Json.str s => s ≠ ""
  | Json.num JSNum.nan => false
  | Json.num (JSNum.val q) => q ≠ 0
  | Json.bool b => b
  | Json.null => false
  | Json.undef => false
  | Json.arr _ => true
  | Json.obj _ => true

/-- The JavaScript `a || b` operator: the first operand if truthy, else the
second. -/
def jsOr (a b : Json) : Json := if truthy a then a else b

/-- Property read `v[k]` for values on which it cannot throw (anything except
`null`/`undefined`).  On plain objects the last binding of a key wins, as for
duplicate keys in JSON; on arrays and boxed primitives named properties read
as `undefined`.  The embedding only applies this to non-null receivers. -/
def getF : Json → String → Json
  | Json.obj kvs, k => (kvs.foldl (fun acc kv => if kv.1 = k then some kv.2 else acc) none).getD Json.undef
  | _, _ => Json.undef

/-- Whitespace as removed by `String.prototype.trim` (the forms relevant to
the sources: space, tab, newline, carriage return, form feed). -/
def isWS (c : Char) : Bool := c = ' ' ∨ c = '\t' ∨ c = '\n' ∨ c = '\r' ∨ c = '\x0c'

/-- `trim` on a character list. -/
def trimL (l : List Char) : List Char :=
  ((l.dropWhile isWS).reverse.dropWhile isWS).reverse

/-- JavaScript `String.prototype.trim`. -/
def trimS (s : String) : String := ⟨trimL s.data⟩

/-- Character lower-casing as used by `toLowerCase` (ASCII; the inputs the
claims exercise are ASCII). -/
def lowerC (c : Char) : Char := c.toLower

/-- Lower-case a character list. -/
def toLowerL (l : List Char) : List Char := l.map lowerC

/-- JavaScript `String.prototype.toLowerCase`. -/
def toLowerS (s : String) : String := ⟨toLowerL s.data⟩

/-- Substring containment, the semantics of `String.prototype.includes`. -/
def listContains (needle : List Char) : List Char → Bool
  | [] => needle.isEmpty
  | c :: rest => needle.isPrefixOf (c :: rest) || listContains needle rest

/-- `hay.includes(needle)` on strings. -/
def strIncludes (hay needle : String) : Bool := listContains needle.data hay.data

/-- `name.endsWith(suffix)`. -/
def strEndsWith (s suffix : String) : Bool := suffix.data.isSuffixOf s.data

/-- Split a character list at every occurrence of a single separator
character, keeping empty parts — the semantics of `split('\n')` and
`split(' ')` in JavaScript. -/
def splitCh (sep : Char) : List Char → List (List Char)
  | [] => [[]]
  | c :: rest =>
    match splitCh sep rest with
    | [] => [[c]]
    | h :: t => if c = sep then [] :: h :: t else (c :: h) :: t

/-- Value of a digit list read in base 10. -/
def digitsVal (ds : List Char) : ℕ := ds.foldl (fun acc d => 10 * acc + (d.toNat - '0'.toNat)) 0

/-- `parseFloat` on a string: skip leading whitespace, optional sign, then a
decimal number `digits[.digits]`; NaN if no digit is found.  (Exponents and
`Infinity` are not modelled; no claim depends on them.) -/
def parseFloatStr (s : String) : JSNum :=
  let l := s.data.dropWhile isWS
  let (sign, l) : ℤ × List Char :=
    match l with
    | '-' :: rest => (-1, rest)
    | '+' :: rest => (1, rest)
    | _ => (1, l)
  let intD := l.takeWhile Char.isDigit
  let rest := l.drop intD.length
  let fracD :=
    match rest with
    | '.' :: r => r.takeWhile Char.isDigit
    | _ => []
  if intD.isEmpty ∧ fracD.isEmpty then JSNum.nan
  else JSNum.val (mkRat (sign * (digitsVal intD * 10 ^ fracD.length + digitsVal fracD : ℕ))
    (10 ^ fracD.length))

/-- `parseFloat` applied to an arbitrary JS value: numbers pass through
(`parseFloat(NaN) = NaN`), strings are parsed; booleans, `null`, `undefined`
and plain objects stringify to something unparsable, hence NaN.  (A
single-element numeric array would stringify to a number; the sources never
feed arrays to `parseFloat` in the verified paths.) -/
def jsParseFloatVal : Json → JSNum
  | Json.num n => n
  | Json.str s => parseFloatStr s
  | _ => JSNum.nan

/-! ## Canonical data model (`types/transcript.ts`) -/

/-- A normalized transcript segment.  `speaker` and `confidence` are
pass-through JS values (`undefined` when absent). -/
structure TranscriptSegment where
  id : String
  text : String
  timestamp : JSNum
  speaker : Json
  confidence : Json

/-- A normalized episode.  Metadata fields keep their dynamic JS type: the
sources copy whatever value the alias cascade found. -/
structure Episode where
  id : String
  title : Json
  podcastTitle : Json
  duration : Json
  publishDate : Json
  description : Json
  transcript : List TranscriptSegment

/-- Result of one batch invocation. -/
structure FileProcessingResult where
  episodes : List Episode
  errors : List String

/-! ## Segment Normalizer (`FileParser.extractSegments`) -/

/-- `id: \x60segment-${index}\x60`. -/
def segId (index : ℕ) : String := "segment-" ++ toString index

/-- Text alias cascade of `extractSegments`:
`segment.text || segment.content || segment.transcript || segment.body || segment.message || ''`. -/
def resolveText (segment : Json) : Json :=
  jsOr (getF segment "text") (jsOr (getF segment "content") (jsOr (getF segment "transcript")
    (jsOr (getF segment "body") (jsOr (getF segment "message") (Json.str "")))))

/-- Timestamp alias cascade of `extractSegments`:
`segment.timestamp || segment.time || segment.start || segment.startTime || index * 5`,
before `parseFloat` is applied. -/
def tsSelect (segment : Json) (index : ℕ) : Json :=
  jsOr (getF segment "timestamp") (jsOr (getF segment "time") (jsOr (getF segment "start")
    (jsOr (getF segment "startTime") (Json.num (JSNum.val (qOfNat (5 * index)))))))

/-- `timestamp = parseFloat(segment.timestamp || segment.time || segment.start || segment.startTime || index * 5)`. -/
def resolveTimestamp (segment : Json) (index : ℕ) : JSNum :=
  jsParseFloatVal (tsSelect segment index)

/-- Speaker alias cascade:
`segment.speaker || segment.name || segment.author || undefined`. -/
def resolveSpeaker (segment : Json) : Json :=
  jsOr (getF segment "speaker") (jsOr (getF segment "name") (jsOr (getF segment "author") Json.undef))

/-- Normalization of one raw node at its ordinal position, the body of the
`forEach` in `extractSegments`.  A string node is taken verbatim with
synthetic timing; an object node goes through the alias cascades; other
primitives leave `text = ''` and are skipped.  `text.trim()` on a truthy
non-string value throws (`Except.error`), as in JavaScript. -/
def normalizeOne (segment : Json) (index : ℕ) : Except Unit (Option TranscriptSegment) :=
  match segment with
  | Json.str s =>
    -- typeof segment === 'string'
    if s ≠ "" ∧ trimS s ≠ "" then
      Except.ok (some ⟨segId index, trimS s, JSNum.val (qOfNat (5 * index)), Json.undef, Json.undef⟩)
    else Except.ok none
  | Json.obj _ | Json.arr _ =>
    -- typeof segment === 'object' && segment !== null  (arrays included)
    let text := resolveText segment
    let timestamp := resolveTimestamp segment index
    let speaker := resolveSpeaker segment
    if truthy text then
      match text with
      | Json.str s =>
        if trimS s ≠ "" then
          Except.ok (some ⟨segId index, trimS s, timestamp, speaker, getF segment "confidence"⟩)
        else Except.ok none
      | _ => Except.error () -- text.trim is not a function
    else Except.ok none
  | _ => Except.ok none

/-- The `forEach` loop of `extractSegments` over the resolved array. -/
def normalizeList : List Json → ℕ → Except Unit (List TranscriptSegment)
  | [], _ => Except.ok []
  | s :: rest, i => do
    let o ← normalizeOne s i
    let r ← normalizeList rest (i + 1)
    Except.ok (o.toList ++ r)

/-- `FileParser.extractSegments`: resolve the segment container through its own
alias cascade (`transcript || segments || lines || transcriptSegments || items || []`),
then normalize each entry; a non-array container yields no segments. -/
def extractSegments (data : Json) : Except Unit (List TranscriptSegment) :=
  let transcriptData :=
    jsOr (getF data "transcript") (jsOr (getF data "segments") (jsOr (getF data "lines")
      (jsOr (getF data "transcriptSegments") (jsOr (getF data "items") (Json.arr [])))))
  match transcriptData with
  | Json.arr xs => normalizeList xs 0
  | _ => Except.ok []

/-! ## Structured-data detector (`FileParser.parseJsonContent` and helpers) -/

/-- Fixed token standing in for the clock/randomness based
`FileParser.generateId`; episode ids play no role in the verified claims. -/
def generateId : String := "episode-0"

/-- Fixed token standing in for `new Date().toISOString()`. -/
def nowString : String := "1970-01-01T00:00:00.000Z"

/-- `filename.replace(/\.[^\/.]+$/, '')`: strip a final dot-extension (a dot
followed by one or more characters that are neither dots nor slashes). -/
def stripExt (s : String) : String :=
  let rev := s.data.reverse
  let ext := rev.takeWhile (fun c => c ≠ '.' ∧ c ≠ '/')
  if ext.length > 0 ∧ rev.get? ext.length = some '.' then
    ⟨(rev.drop (ext.length + 1)).reverse⟩
  else s

/-- `FileParser.calculateDuration`: 0 for no segments, else the last
segment's timestamp plus 30. -/
def calculateDuration (segments : List TranscriptSegment) : JSNum :=
  match segments.getLast? with
  | none => JSNum.val 0
  | some s => jsAdd s.timestamp (JSNum.val 30)

/-- Guard modelling `Object.keys(data)` (and any other member access that
throws on `null`/`undefined`). -/
def jsAccessGuard : Json → Except Unit Unit
  | Json.null => Except.error ()
  | Json.undef => Except.error ()
  | _ => Except.ok ()

/-- `FileParser.createEpisodeFromSegments`: re-normalize the raw segment
array and build an episode around it; `null` when normalization leaves no
segments. -/
def createEpisodeFromSegments (segments : List Json) (filename : String) :
    Except Unit (Option Episode) := do
  let transcriptSegments ← extractSegments (Json.obj [("segments", Json.arr segments)])
  if transcriptSegments.isEmpty then Except.ok none
  else
    Except.ok (some
      { id := generateId
        title := Json.str (stripExt filename)
        podcastTitle := Json.str "Imported Podcast"
        duration := Json.num (calculateDuration transcriptSegments)
        publishDate := Json.str nowString
        description := Json.undef
        transcript := transcriptSegments })

/-- `FileParser.extractEpisodeFromData`.  `Object.keys(data)` throws when the
argument is `null`/`undefined` (reachable via `data.episodes[0]` on an empty
array). -/
def extractEpisodeFromData (data : Json) (filename : String) :
    Except Unit (Option Episode) := do
  jsAccessGuard data
  let segments ← extractSegments data
  if segments.isEmpty then Except.ok none
  else
    Except.ok (some
      { id := generateId
        title := jsOr (getF data "title") (jsOr (getF data "episodeTitle")
          (jsOr (getF data "name") (Json.str filename)))
        podcastTitle := jsOr (getF data "podcastTitle") (jsOr (getF data "showTitle")
          (jsOr (getF data "podcast") (Json.str "Unknown Podcast")))
        duration := jsOr (getF data "duration") (Json.num (calculateDuration segments))
        publishDate := jsOr (getF data "publishDate") (jsOr (getF data "date")
          (jsOr (getF data "pubDate") (Json.str nowString)))
        description := jsOr (getF data "description") (getF data "summary")
        transcript := segments })

/-- `FileParser.extractApplePodcastEpisode`. -/
def extractApplePodcastEpisode (data : Json) (filename : String) :
    Except Unit (Option Episode) := do
  let episodeData := jsOr (getF data "MTEpisode") (jsOr (getF data "episode") data)
  let transcriptData := jsOr (getF episodeData "transcript") (jsOr (getF episodeData "transcriptSegments")
    (jsOr (getF episodeData "segments") (getF episodeData "lines")))
  if ¬ truthy transcriptData then Except.ok none
  else do
    let segments ← extractSegments (Json.obj [("segments", transcriptData)])
    if segments.isEmpty then Except.ok none
    else
      Except.ok (some
        { id := generateId
          title := jsOr (getF episodeData "title") (jsOr (getF episodeData "name") (Json.str filename))
          podcastTitle := jsOr (getF episodeData "podcastTitle") (jsOr (getF episodeData "showTitle")
            (jsOr (getF episodeData "podcast") (Json.str "Unknown Podcast")))
          duration := jsOr (getF episodeData "duration") (Json.num (calculateDuration segments))
          publishDate := jsOr (getF episodeData "publishDate") (jsOr (getF episodeData "date")
            (jsOr (getF episodeData "pubDate") (Json.str nowString)))
          description := jsOr (getF episodeData "description") (getF episodeData "summary")
          transcript := segments })

/-- `typeof v === 'object'` — true for objects, arrays and `null`. -/
def typeofObject : Json → Bool
  | Json.obj _ => true
  | Json.arr _ => true
  | Json.null => true
  | _ => false

/-- `Object.entries` as iterated by the property scan of `parseJsonContent`
(objects: key/value pairs; arrays: indexed elements; strings: indexed
characters; other primitives: nothing). -/
def jsEntries : Json → List (String × Json)
  | Json.obj kvs => kvs
  | Json.arr xs => xs.enum.map (fun p => (toString p.1, p.2))
  | Json.str s => s.data.enum.map (fun p => (toString p.1, Json.str ⟨[p.2]⟩))
  | _ => []

/-- The final property scan of `parseJsonContent`: the first key whose value
is a non-empty array whose first element is object-typed and carries a truthy
`text` or `content` is turned into a segment list. -/
def scanEntries (entries : List (String × Json)) (filename : String) :
    Except Unit (Option Episode) :=
  match entries with
  | [] => Except.ok none
  | (_, value) :: rest =>
    match value with
    | Json.arr (first :: xs) =>
      if typeofObject first then do
        jsAccessGuard first -- firstItem.text throws when the element is null
        if truthy (getF first "text") ∨ truthy (getF first "content") then
          createEpisodeFromSegments (first :: xs) filename
        else scanEntries rest filename
      else scanEntries rest filename
    | _ => scanEntries rest filename

/-- The tail of `parseJsonContent`'s body: the single-episode-envelope test
(`data.transcript || data.segments || data.lines`), the bare-array cases and
the final property scan — everything after the `episodes`-envelope attempt
falls through. -/
def parseJsonDataTail (data : Json) (filename : String) : Except Unit (Option Episode) :=
  if truthy (getF data "transcript") ∨ truthy (getF data "segments") ∨
      truthy (getF data "lines") then
    extractEpisodeFromData data filename
  else
    match data with
    | Json.arr (first :: xs) => do
      jsAccessGuard first -- data[0].text throws when the element is null
      if truthy (getF first "text") ∨ truthy (getF first "content") then
        createEpisodeFromSegments (first :: xs) filename
      else if truthy (getF first "transcript") ∨ truthy (getF first "segments") then
        extractEpisodeFromData first filename
      else scanEntries (jsEntries (Json.arr (first :: xs))) filename
    | _ => scanEntries (jsEntries data) filename

/-- Body of `FileParser.parseJsonContent` after a successful `JSON.parse`
(the surrounding try/catch is applied by `parseJsonContent` below). -/
def parseJsonData (data : Json) (filename : String) : Except Unit (Option Episode) := do
  jsAccessGuard data -- data.MTEpisode on null/undefined throws
  if truthy (getF data "MTEpisode") ∨ truthy (getF data "episode") then
    extractApplePodcastEpisode data filename
  else do
    let viaEpisodes : Option Episode ←
      match getF data "episodes" with
      | Json.arr xs => extractEpisodeFromData (xs.head?.getD Json.undef) filename
      | _ => Except.ok none
    match viaEpisodes with
    | some e => Except.ok (some e)
    | none => parseJsonDataTail data filename

/-- `FileParser.parseJsonContent`.  The argument is the oracle result of
`JSON.parse` on the payload (`none` = syntax error); the function's own
try/catch turns any thrown exception into `null`. -/
def parseJsonContent (parsed : Option Json) (filename : String) : Option Episode :=
  match parsed with
  | none => none
  | some data =>
    match parseJsonData data filename with
    | Except.ok r => r
    | Except.error _ => none

/-! ## Markup/property-list detector (`FileParser.parsePlistContent` and helpers)

The DOM produced by `DOMParser` is modelled by the query results the sources
actually consume: the document-order list of `<dict>` elements (each with the
document-order `textContent` of its `<key>` descendants and of its
`<string>/<real>/<integer>` descendants) and the document-order list of
`<string>` element `textContent`s.  A `textContent` is `Option String`
(`none` = null). -/

/-- The view of one `<dict>` element used by `extractTranscriptFromPlist`. -/
structure DictView where
  keys : List (Option String)
  values : List (Option String)

/-- The view of a parsed XML document used by the plist detector. -/
structure XmlDoc where
  dicts : List DictView
  strings : List (Option String)

/-- The key/value map built for one dict: for each index below both list
lengths, bind the lower-cased key to the value when both are truthy; later
bindings overwrite earlier ones (JS object assignment). -/
def buildSegmentData (dv : DictView) : List (String × Json) :=
  (List.range (min dv.keys.length dv.values.length)).foldl
    (fun acc i =>
      match (dv.keys.get? i).getD none, (dv.values.get? i).getD none with
      | some k0, some v =>
        let k := toLowerS k0
        if k ≠ "" ∧ v ≠ "" then acc ++ [(k, Json.str v)] else acc
      | _, _ => acc) []

/-- One primary-strategy candidate: a dict becomes a segment object when its
map carries a truthy `text`, `content` or `transcript` entry. -/
def plistDictSegment (dictIndex : ℕ) (dv : DictView) : Option Json :=
  let sd := Json.obj (buildSegmentData dv)
  if truthy (getF sd "text") ∨ truthy (getF sd "content") ∨ truthy (getF sd "transcript") then
    some (Json.obj
      [("id", Json.str (segId dictIndex)),
       ("text", jsOr (getF sd "text") (jsOr (getF sd "content") (getF sd "transcript"))),
       ("timestamp", Json.num (jsParseFloatVal
         (jsOr (getF sd "timestamp") (jsOr (getF sd "time")
           (Json.num (JSNum.val (qOfNat (5 * dictIndex)))))))),
       ("speaker", jsOr (getF sd "speaker") (getF sd "name"))])
  else none

/-- The primary dict-scan strategy of `extractTranscriptFromPlist`. -/
def plistPrimarySegments (doc : XmlDoc) : List Json :=
  doc.dicts.enum.filterMap (fun p => plistDictSegment p.1 p.2)

/-- `FileParser.looksLikeTranscriptText`: reject URL-shaped, all-digit,
all-caps and dotted-identifier strings, and require
`text.split(' ').length > 3`. -/
def wordCharB (c : Char) : Bool := c.isAlphanum || c = '_'

/-- The pattern `/^https?:\/\//` of `looksLikeTranscriptText`. -/
def urlPattern (text : String) : Bool :=
  decide (text.data.take 7 = "http://".data) || decide (text.data.take 8 = "https://".data)

/-- The pattern `/^\d+$/` of `looksLikeTranscriptText`. -/
def allDigitsPattern (text : String) : Bool :=
  decide (text.data ≠ []) && text.data.all Char.isDigit

/-- The pattern `/^[A-Z_]+$/` of `looksLikeTranscriptText`. -/
def allCapsPattern (text : String) : Bool :=
  decide (text.data ≠ []) && text.data.all (fun c => decide ('A' ≤ c ∧ c ≤ 'Z') || c = '_')

/-- The pattern `/^\w+\.\w+$/` of `looksLikeTranscriptText`. -/
def dottedIdentPattern (text : String) : Bool :=
  match splitCh '.' text.data with
  | [a, b] => decide (a ≠ []) && decide (b ≠ []) && a.all wordCharB && b.all wordCharB
  | _ => false

def looksLikeTranscriptText (text : String) : Bool :=
  let matchesMeta : Bool :=
    urlPattern text || allDigitsPattern text || allCapsPattern text || dottedIdentPattern text
  ¬ matchesMeta && (splitCh ' ' text.data).length > 3

/-- The fallback strategy of `extractTranscriptFromPlist`: every `<string>`
leaf whose trimmed text is truthy, longer than 20 characters and passes
`looksLikeTranscriptText` becomes a synthetic segment. -/
def plistFallbackSegments (doc : XmlDoc) : List Json :=
  doc.strings.enum.filterMap (fun p =>
    match p.2 with
    | some t0 =>
      let t := trimS t0
      if t ≠ "" ∧ t.length > 20 ∧ looksLikeTranscriptText t then
        some (Json.obj
          [("id", Json.str (segId p.1)),
           ("text", Json.str t),
           ("timestamp", Json.num (JSNum.val (qOfNat (5 * p.1))))])
      else none
    | none => none)

/-- `FileParser.extractTranscriptFromPlist`: primary dict scan, then (only
when it found nothing) the filtered string-leaf fallback; `null` when both
are empty. -/
def extractTranscriptFromPlist (doc : XmlDoc) : Option (List Json) :=
  let primary := plistPrimarySegments doc
  let segments := if primary.isEmpty then plistFallbackSegments doc else primary
  if segments.isEmpty then none else some segments

/-- `FileParser.parsePlistContent`.  The argument is the oracle result of
`DOMParser` (`none` = a document with a `parsererror` marker, which the
source treats as no match). -/
def parsePlistContent (parsed : Option XmlDoc) (filename : String) : Option Episode :=
  match parsed with
  | none => none
  | some doc =>
    let body : Except Unit (Option Episode) :=
      match extractTranscriptFromPlist doc with
      | some transcriptData => createEpisodeFromSegments transcriptData filename
      | none =>
        -- unfiltered secondary scan over all <string> nodes, length > 20 only
        let textSegments := doc.strings.enum.filterMap (fun p =>
          match p.2 with
          | some t0 =>
            let t := trimS t0
            if t ≠ "" ∧ t.length > 20 then
              some (Json.obj
                [("id", Json.str (segId p.1)),
                 ("text", Json.str t),
                 ("timestamp", Json.num (JSNum.val (qOfNat (5 * p.1))))])
            else none
          | none => none)
        if textSegments.length > 0 then createEpisodeFromSegments textSegments filename
        else Except.ok none
    match body with
    | Except.ok r => r
    | Except.error _ => none

/-! ## Free-text heuristic and generic-file path -/

/-- The fixed keyword list of `FileParser.looksLikeTranscript`. -/
def transcriptIndicators : List String :=
  ["transcript", "speaker", "timestamp", "time", "text", "dialogue", "conversation"]

/-- Number of distinct indicator keywords occurring in the lower-cased
payload. -/
def transcriptIndicatorCount (content : String) : ℕ :=
  (transcriptIndicators.filter (fun k => strIncludes (toLowerS content) k)).length

/-- `FileParser.looksLikeTranscript`: at least 2 distinct keyword hits. -/
def looksLikeTranscript (content : String) : Bool :=
  transcriptIndicatorCount content ≥ 2

/-- The guard on the free-text branch of `processGenericFile`
(`content.length > 100 && this.looksLikeTranscript(content)`). -/
def freeTextAccepts (content : String) : Bool :=
  content.length > 100 && looksLikeTranscript content

/-- `FileParser.createEpisodeFromText`: split into non-blank lines, keep
lines of trimmed length above 10 as 5-second-spaced segments (the ordinal
used for ids and timing is the index among the non-blank lines). -/
def createEpisodeFromText (content : String) (filename : String) : Episode :=
  let lines := (splitCh '\n' content.data).filter (fun l => (trimL l).length > 0)
  let segments := lines.enum.filterMap (fun p =>
    let trimmedLine := trimL p.2
    if trimmedLine.length > 10 then
      some (⟨segId p.1, ⟨trimmedLine⟩, JSNum.val (qOfNat (5 * p.1)), Json.undef, Json.undef⟩ :
        TranscriptSegment)
    else none)
  { id := generateId
    title := Json.str (stripExt filename)
    podcastTitle := Json.str "Imported Podcast"
    duration := Json.num (JSNum.val (qOfNat (5 * segments.length)))
    publishDate := Json.str nowString
    description := Json.undef
    transcript := segments }

/-- A raw file payload together with the oracle results of the external
parsers on it: `json` is what `JSON.parse` would return (`none` = syntax
error) and `xml` what `DOMParser` would produce (`none` = parser-error
document). -/
structure Payload where
  raw : String
  json : Option Json
  xml : Option XmlDoc

/-- `FileParser.processGenericFile`: JSON attempt, then plist attempt, then
the free-text heuristic; `null` when no branch succeeds. -/
def processGenericFile (p : Payload) (filename : String) : Option Episode :=
  match parseJsonContent p.json filename with
  | some episode => some episode
  | none =>
    match parsePlistContent p.xml filename with
    | some episode => some episode
    | none =>
      if freeTextAccepts p.raw then some (createEpisodeFromText p.raw filename)
      else none

/-! ## Container expander and batch processor (`processZipFile`, `processFiles`) -/

/-- One entry of a decoded ZIP container. -/
structure ZipEntry where
  name : String
  isDir : Bool
  payload : Payload

/-- One input file of a batch: name, byte size, declared MIME type, payload,
and the oracle result of `JSZip.loadAsync` (`none` = corrupt container;
only consulted for `.zip` names). -/
structure InputFile where
  name : String
  size : ℕ
  type : String
  payload : Payload
  zip : Option (List ZipEntry)

/-- Concatenation of two batch results (episodes and errors each keep
discovery order). -/
def mergeResults (a b : FileProcessingResult) : FileProcessingResult :=
  ⟨a.episodes ++ b.episodes, a.errors ++ b.errors⟩

/-- Processing of one non-directory ZIP entry (the loop body of
`processZipFile`): `.json` and `.plist`/`.xml` entries go to their detectors;
entries whose name contains `transcript` or whose content passes the keyword
check go to `createEpisodeFromText`, surfaced only when the resulting
transcript is non-empty; all other entries are skipped silently. -/
def processZipEntry (e : ZipEntry) : List Episode :=
  if strEndsWith e.name ".json" then
    (parseJsonContent e.payload.json e.name).toList
  else if strEndsWith e.name ".plist" || strEndsWith e.name ".xml" then
    (parsePlistContent e.payload.xml e.name).toList
  else if strIncludes e.name "transcript" || looksLikeTranscript e.payload.raw then
    let episode := createEpisodeFromText e.payload.raw e.name
    if episode.transcript.length > 0 then [episode] else []
  else []

/-- `FileParser.processZipFile`: a failed container decode yields one error
and no episodes; otherwise every non-directory entry is processed in order.
The message text of a decode failure wraps the thrown error's message; the
constant used for it here stands for that external text. -/
def processZipFile (zip : Option (List ZipEntry)) : FileProcessingResult :=
  match zip with
  | none => ⟨[], ["Error reading ZIP file: Unknown error"]⟩
  | some entries =>
    ⟨(entries.filter (fun e => ¬ e.isDir)).flatMap processZipEntry, []⟩

/-- The directory-placeholder error message of `processFiles`. -/
def dirMsg (name : String) : String :=
  "Cannot process directory \"" ++ name ++ "\". Please select individual files instead."

/-- The unsupported-SQLite error message of `processFiles`. -/
def sqliteMsg (name : String) : String :=
  "SQLite files (" ++ name ++ ") cannot be processed in the browser. Please look for JSON or PLIST files in the podcast data folder."

/-- Per-file outcome: episodes and errors contributed by the file, plus
whether the file's contents were read (`file.text()` / `JSZip.loadAsync`). -/
structure FileOutcome where
  episodes : List Episode
  errors : List String
  readContent : Bool

/-- The dispatch for one input file (the loop body of
`FileParser.processFiles`).  An empty type together with zero size is taken
for a directory placeholder; then extension dispatch: `.zip` to the container
expander, `.json` to the structured-data detector, `.plist`/`.xml` to the
markup detector, `.sqlite`/`.db` to an unsupported-format error without
reading the file, and everything else (including names containing
`transcript`/`Transcript`, whose branch has the same behaviour as the
final fallback) to `processGenericFile`. -/
def processOneFile (f : InputFile) : FileOutcome :=
  if f.type = "" ∧ f.size = 0 then ⟨[], [dirMsg f.name], false⟩
  else if strEndsWith f.name ".zip" then
    let r := processZipFile f.zip
    ⟨r.episodes, r.errors, true⟩
  else if strEndsWith f.name ".json" then
    ⟨(parseJsonContent f.payload.json f.name).toList, [], true⟩
  else if strEndsWith f.name ".plist" || strEndsWith f.name ".xml" then
    ⟨(parsePlistContent f.payload.xml f.name).toList, [], true⟩
  else if strEndsWith f.name ".sqlite" || strEndsWith f.name ".db" then
    ⟨[], [sqliteMsg f.name], false⟩
  else
    ⟨(processGenericFile f.payload f.name).toList, [], true⟩

/-- `FileParser.processFiles`: process the batch strictly in order,
concatenating episodes and errors. -/
def processFiles : List InputFile → FileProcessingResult
  | [] => ⟨[], []⟩
  | f :: rest =>
    let o := processOneFile f
    mergeResults ⟨o.episodes, o.errors⟩ (processFiles rest)

/-! ## Search Engine (`searchEngine.ts`) -/

/-- One search hit. -/
structure SearchResult where
  segmentId : String
  episodeId : String
  text : String
  timestamp : JSNum
  highlightedText : String
  deriving DecidableEq, Repr

/-- The options record of `SearchEngine.search`; an absent option reads as
`undefined`, i.e. `false`. -/
structure SearchOptions where
  caseSensitive : Bool
  wholeWords : Bool

/-- `\w` of JavaScript regexes. -/
def isWordChar (c : Char) : Bool := c.isAlphanum || c = '_'

/-- Whether position `i` of `t` starts with `q`. -/
def matchAt (t q : List Char) (i : ℕ) : Bool := q.isPrefixOf (t.drop i)

/-- Whether a `\b` assertion holds just before position `i` of `t`
(word-character status changes between positions `i - 1` and `i`; outside
the string counts as non-word). -/
def boundaryBefore (t : List Char) (i : ℕ) : Bool :=
  (if i = 0 then false else ((t.get? (i - 1)).map isWordChar).getD false) ≠
    ((t.get? i).map isWordChar).getD false

/-- `new RegExp('\\b' + q + '\\b', 'gi').test(t)` for a literal
(regex-escaped) query: some position matches the query case-insensitively
with word boundaries on both sides.  The `i` flag makes this test
case-insensitive regardless of the `caseSensitive` option. -/
def wholeWordTest (t q : List Char) : Bool :=
  let tl := toLowerL t
  let ql := toLowerL q
  (List.range (tl.length + 1)).any (fun i =>
    matchAt tl ql i && boundaryBefore t i && boundaryBefore t (i + ql.length))

/-- `SearchEngine.matchesQuery`: word-boundary regex test when `wholeWords`,
else plain substring containment of the (pre-case-folded) query. -/
def matchesQuery (text query : String) (wholeWords : Bool) : Bool :=
  if wholeWords then wholeWordTest text.data query.data
  else listContains query.data text.data

/-- Fuelled scanner counting non-overlapping occurrences of `needle`,
restarting after the end of each match (`pos += searchQuery.length`). -/
def countOccF : ℕ → List Char → List Char → ℕ
  | 0, _, _ => 0
  | _ + 1, [], _ => 0
  | fuel + 1, c :: rest, needle =>
    if needle.isPrefixOf (c :: rest) then
      1 + countOccF fuel (rest.drop (needle.length - 1)) needle
    else countOccF fuel rest needle

/-- Non-overlapping substring occurrence count (the `indexOf` loop of
`countMatches`). -/
def countOcc (hay needle : List Char) : ℕ := countOccF hay.length hay needle

/-- Fuelled scanner counting the matches of `/\bq\b/gi`: leftmost matches,
continuing right after each match. -/
def countWWF : ℕ → List Char → List Char → ℕ → ℕ
  | 0, _, _, _ => 0
  | fuel + 1, t, q, i =>
    if i + q.length > t.length then 0
    else if matchAt (toLowerL t) (toLowerL q) i && boundaryBefore t i &&
        boundaryBefore t (i + q.length) then
      1 + countWWF fuel t q (i + max 1 q.length)
    else countWWF fuel t q (i + 1)

/-- `SearchEngine.countMatches`: both text and query are lower-cased again
regardless of the options, then matches are counted per `wholeWords`. -/
def countMatches (text query : String) (wholeWords : Bool) : ℕ :=
  let searchText := toLowerS text
  let searchQuery := toLowerS query
  if wholeWords then countWWF (searchText.data.length + 1) searchText.data searchQuery.data 0
  else countOcc searchText.data searchQuery.data

/-- Case-fold a character list when `ci` is set (the difference between the
`g` and `gi` regex flags). -/
def foldCase (ci : Bool) (l : List Char) : List Char := if ci then toLowerL l else l

/-- Fuelled scanner producing the decomposition of `t` into unmatched pieces
(`false`) and matched occurrences of the literal query (`true`), leftmost
non-overlapping, exactly as `String.prototype.replace` with a global
regex-escaped pattern finds them.  Matched pieces keep the original
characters of `t` (the `$1` back-reference). -/
def hlPiecesF (q : List Char) (ci : Bool) : ℕ → List Char → List (Bool × List Char)
  | 0, t => [(false, t)]
  | fuel + 1, t =>
    match t with
    | [] => []
    | c :: rest =>
      if foldCase ci q <+: foldCase ci (c :: rest) then
        (true, (c :: rest).take q.length) :: hlPiecesF q ci fuel ((c :: rest).drop q.length)
      else (false, [c]) :: hlPiecesF q ci fuel rest

/-- The match/non-match decomposition used by `highlightMatches`. -/
def hlPieces (t q : List Char) (ci : Bool) : List (Bool × List Char) :=
  if q.isEmpty then [(false, t)] else hlPiecesF q ci t.length t

/-- The inserted highlight wrapper (`<mark ...>$1</mark>`). -/
def markOpen : List Char := "<mark class=\"bg-yellow-200 dark:bg-yellow-600 px-1 rounded\">".data

/-- The closing half of the highlight wrapper. -/
def markClose : List Char := "</mark>".data

/-- Render a decomposition, wrapping matched pieces with `wrap`. -/
def renderPieces (wrap : List Char → List Char) (ps : List (Bool × List Char)) : List Char :=
  ps.flatMap (fun p => if p.1 then wrap p.2 else p.2)

/-- The identity rendering: every piece contributes its raw characters. -/
def stripPieces (ps : List (Bool × List Char)) : List Char := ps.flatMap (fun p => p.2)

/-- Wrap a matched span in the highlight markup. -/
def markWrap (l : List Char) : List Char := markOpen ++ l ++ markClose

/-- `SearchEngine.highlightMatches`: blank queries pass the text through;
otherwise every occurrence of the regex-escaped literal query — found
case-insensitively exactly when `caseSensitive` is false (flags `gi` vs `g`)
— is wrapped in the highlight markup. -/
def highlightMatches (text query : String) (caseSensitive : Bool) : String :=
  if trimS query = "" then text
  else ⟨renderPieces markWrap (hlPieces text.data query.data (!caseSensitive))⟩

/-- The comparator of `SearchEngine.search` (`bMatches - aMatches`, falling
back to `a.timestamp - b.timestamp`), as the JS number it returns. -/
def sortCompare (sq : String) (ww : Bool) (a b : SearchResult) : JSNum :=
  let aMatches := countMatches a.text sq ww
  let bMatches := countMatches b.text sq ww
  if aMatches ≠ bMatches then JSNum.val (mkRat ((bMatches : ℤ) - (aMatches : ℤ)) 1)
  else jsSub a.timestamp b.timestamp

/-- `a` sorts strictly before `b`: the comparator returns a negative number
(an NaN comparator value is treated as 0 by `Array.prototype.sort`). -/
def cmpLt (sq : String) (ww : Bool) (a b : SearchResult) : Bool :=
  match sortCompare sq ww a b with
  | JSNum.nan => false
  | JSNum.val q => q < 0

/-- Stable insertion of `a` into `l`: `a` is placed before the first element
that does not sort strictly before it. -/
def insertSorted (lt : α → α → Bool) (a : α) : List α → List α
  | [] => [a]
  | x :: xs => if lt x a then x :: insertSorted lt a xs else a :: x :: xs

/-- `Array.prototype.sort` modelled as a stable insertion sort (ECMAScript
requires a stable sort; for a consistent comparator the result is the unique
stable sorted permutation). -/
def insertionSort (lt : α → α → Bool) : List α → List α
  | [] => []
  | a :: rest => insertSorted lt a (insertionSort lt rest)

/-- The pre-sort result list of `SearchEngine.search` (the `results` array
filled by the two nested `forEach` loops): every segment of every episode is
tested with `matchesQuery` against the case-folded query, and hits become
`SearchResult`s in corpus order. -/
def searchRawResults (episodes : List Episode) (query : String) (options : SearchOptions) :
    List SearchResult :=
  let searchQuery := if options.caseSensitive then query else toLowerS query
  episodes.flatMap (fun episode =>
    episode.transcript.filterMap (fun segment =>
      let text := if options.caseSensitive then segment.text else toLowerS segment.text
      if matchesQuery text searchQuery options.wholeWords then
        some ⟨segment.id, episode.id, segment.text, segment.timestamp,
          highlightMatches segment.text query options.caseSensitive⟩
      else none))

/-- `SearchEngine.search` over a corpus snapshot: blank queries yield no
results; otherwise the collected results are sorted by the relevance
comparator. -/
def searchEngineSearch (episodes : List Episode) (query : String) (options : SearchOptions) :
    List SearchResult :=
  if trimS query = "" then []
  else
    insertionSort (cmpLt (if options.caseSensitive then query else toLowerS query)
      options.wholeWords) (searchRawResults episodes query options)

/-- The mutable state of a `SearchEngine` instance: the episode snapshot
installed by `setEpisodes`. -/
structure SearchEngineState where
  episodes : List Episode

/-- `SearchEngine.search` as a state-passing operation: it returns its
results together with the (unchanged) instance state. -/
def searchStateful (st : SearchEngineState) (query : String) (options : SearchOptions) :
    List SearchResult × SearchEngineState :=
  (searchEngineSearch st.episodes query options, st)

/-! ## Derived notions used in the statements -/

/-- Comparison of result timestamps as the ranking's secondary key: for two
actual numbers it is numeric `≤`; a pair involving NaN admits no numeric
order, so it constrains nothing (the comparator maps such pairs to 0). -/
def tsLeB : JSNum → JSNum → Bool
  | JSNum.val qa, JSNum.val qb => decide (qa ≤ qb)
  | _, _ => true

/-- The full ranking order on search results for a given folded query:
strictly more matches first, and among equal match counts ascending
timestamps (constraining only actual-number pairs). -/
def resultOrder (sq : String) (ww : Bool) (a b : SearchResult) : Prop :=
  countMatches b.text sq ww < countMatches a.text sq ww ∨
    (countMatches a.text sq ww = countMatches b.text sq ww ∧ tsLeB a.timestamp b.timestamp = true)

instance (sq : String) (ww : Bool) (a b : SearchResult) : Decidable (resultOrder sq ww a b) := by
  unfold resultOrder; exact inferInstance

/-- The primary-key-only ranking order: match counts are non-increasing. -/
def countOrder (sq : String) (ww : Bool) (a b : SearchResult) : Prop :=
  countMatches b.text sq ww ≤ countMatches a.text sq ww

/-- Number of words of a string, reading a word as a maximal run of
non-whitespace characters.  Modelled from the spec: the claim-side meaning of
"require at least 4 words" (the code itself checks `split(' ').length > 3`). -/
def wordCount (s : String) : ℕ :=
  (s.data.foldl (fun (acc : ℕ × Bool) c =>
    if isWS c then (acc.1, false) else (if acc.2 then acc.1 else acc.1 + 1, true)) (0, false)).1

/-- The `text` field of a segment object, as a string (empty for any other
shape). -/
def jsonTextField (j : Json) : String :=
  match getF j "text" with
  | Json.str s => s
  | _ => ""

/-- The segment-object shape produced by the Segment Normalizer, fed back to
it for the idempotence claim: `{id, text, timestamp, speaker, confidence}`
with a string text and a numeric timestamp. -/
def normSegJson (idStr text : String) (ts : ℚ) (speaker confidence : Json) : Json :=
  Json.obj [("id", Json.str idStr), ("text", Json.str text),
    ("timestamp", Json.num (JSNum.val ts)), ("speaker", speaker), ("confidence", confidence)]

/-! ## Concrete inputs used by counterexamples and witnesses -/

/-- 117 characters of short transcript-keyword lines: every line trims to at
most 10 characters, and the keywords `speaker` and `time` both occur. -/
def shortLinesContent : String :=
  "speaker\ntime\nspeaker\ntime\nspeaker\ntime\nspeaker\ntime\nspeaker\ntime\nspeaker\ntime\nspeaker\ntime\nspeaker\ntime\nspeaker\ntime\n"

/-- A plain text file carrying `shortLinesContent` (not valid JSON, not valid
XML). -/
def shortLinesFile : InputFile :=
  ⟨"notes.txt", 117, "text/plain", ⟨shortLinesContent, none, none⟩, none⟩

/-- A segment record whose only timestamp alias holds an unparsable string. -/
def badTsData : Json :=
  Json.obj [("segments", Json.arr [Json.obj [("text", Json.str "hi"), ("timestamp", Json.str "abc")]])]

/-- A record with text but no timestamp alias at all. -/
def noTsRecord : Json := Json.obj [("text", Json.str "hi")]

/-- A two-element segment array whose second entry is an already-normalized
segment with timestamp 0 (as produced, e.g., from `{"text":"hi","timestamp":"0"}`
at ordinal 1). -/
def normalizedZeroTsData : Json :=
  Json.obj [("segments", Json.arr
    [Json.str "first segment text", normSegJson "segment-1" "hi" 0 Json.undef Json.undef])]

/-- A corpus of three one-match segments with timestamps 7, NaN and 5. -/
def nanTsCorpus : List Episode :=
  [{ id := "e1"
     title := Json.str "t"
     podcastTitle := Json.str "p"
     duration := Json.num (JSNum.val 0)
     publishDate := Json.str "d"
     description := Json.undef
     transcript := [(⟨"s1", "ho a", JSNum.val 7, Json.undef, Json.undef⟩ : TranscriptSegment),
                    (⟨"s2", "ho b", JSNum.nan, Json.undef, Json.undef⟩ : TranscriptSegment),
                    (⟨"s3", "ho c", JSNum.val 5, Json.undef, Json.undef⟩ : TranscriptSegment)] }]

/-- A corpus with NaN-free timestamps and differing match counts. -/
def realTsCorpus : List Episode :=
  [{ id := "e1"
     title := Json.str "t"
     podcastTitle := Json.str "p"
     duration := Json.num (JSNum.val 0)
     publishDate := Json.str "d"
     description := Json.undef
     transcript := [(⟨"s1", "ho a ho", JSNum.val 9, Json.undef, Json.undef⟩ : TranscriptSegment),
                    (⟨"s2", "ho b", JSNum.val 7, Json.undef, Json.undef⟩ : TranscriptSegment),
                    (⟨"s3", "ho c", JSNum.val 5, Json.undef, Json.undef⟩ : TranscriptSegment)] }]

/-- A corpus with one segment containing the query in two casings. -/
def mixedCaseCorpus : List Episode :=
  [{ id := "e1"
     title := Json.undef
     podcastTitle := Json.undef
     duration := Json.undef
     publishDate := Json.undef
     description := Json.undef
     transcript := [(⟨"s1", "foo FOO", JSNum.val 0, Json.undef, Json.undef⟩ : TranscriptSegment)] }]

/-- The single search result of `mixedCaseCorpus` for query `foo` with
`caseSensitive` set. -/
def mixedCaseResult : SearchResult :=
  ⟨"s1", "e1", "foo FOO", JSNum.val 0,
    "<mark class=\"bg-yellow-200 dark:bg-yellow-600 px-1 rounded\">foo</mark> FOO"⟩

/-- A three-word string padded with double spaces: 25 characters, 5 parts
under `split(' ')`, but only 3 words. -/
def threeWordText : String := "aaaaaaa  bbbbbbb  ccccccc"

/-- A plist document whose dict scan finds nothing and whose only string
leaf is `threeWordText`. -/
def threeWordDoc : XmlDoc := ⟨[], [some threeWordText]⟩

/-- The fallback segment object the plist detector builds for
`threeWordText`. -/
def threeWordSeg : Json :=
  Json.obj [("id", Json.str "segment-0"), ("text", Json.str threeWordText),
    ("timestamp", Json.num (JSNum.val 0))]

/-- Exactly 100 characters containing the keywords `speaker` and `time`. -/
def kw100 : String :=
  "speaker time aaaaaaaaaaaaaaaaaaaaaaaaaaaaaaaaaaaaaaaaaaaaaaaaaaaaaaaaaaaaaaaaaaaaaaaaaaaaaaaaaaaaaaa"

/-- 101 characters containing the keywords `speaker` and `time`. -/
def kw101 : String := kw100 ++ "a"

/-- A zero-byte `.sqlite` input with an empty declared type, exactly the
shape the directory check fires on. -/
def emptySqliteFile : InputFile := ⟨"data.sqlite", 0, "", ⟨"", none, none⟩, none⟩

/-- An ordinary (non-empty) `.sqlite` input. -/
def realSqliteFile : InputFile :=
  ⟨"podcast.sqlite", 2048, "application/octet-stream", ⟨"", none, none⟩, none⟩

/-- A JSON document with one transcript line. -/
def oneLineJson : Json :=
  Json.obj [("transcript", Json.arr [Json.str "Hello world this is long"])]

/-- The episode `parseJsonContent` extracts from `oneLineJson`. -/
def oneLineEpisode : Episode :=
  { id := "episode-0"
    title := Json.str "a.json"
    podcastTitle := Json.str "Unknown Podcast"
    duration := Json.num (JSNum.val 30)
    publishDate := Json.str nowString
    description := Json.undef
    transcript := [⟨"segment-0", "Hello world this is long", JSNum.val 0, Json.undef, Json.undef⟩] }

/-! ## Bridge lemmas -/

theorem qSub_eq (a b : ℚ) : qSub a b = a - b := by
  unfold qSub
  have ha : ((a.den : ℚ)) ≠ 0 := Nat.cast_ne_zero.mpr a.den_nz
  have hb : ((b.den : ℚ)) ≠ 0 := Nat.cast_ne_zero.mpr b.den_nz
  have hA : (a.num : ℚ) = a * a.den := (div_eq_iff ha).mp (Rat.num_div_den a)
  have hB : (b.num : ℚ) = b * b.den := (div_eq_iff hb).mp (Rat.num_div_den b)
  rw [Rat.mkRat_eq_divInt, Rat.divInt_eq_div]
  push_cast
  field_simp
  rw [hA, hB]
  ring

theorem qOfNat_eq (n : ℕ) : qOfNat n = (n : ℚ) := by
  unfold qOfNat
  rw [Rat.mkRat_one]
  push_cast
  rfl

/-! ## Claim theorems -/

/-- C7: for every payload with at least 2 distinct keyword hits, the
free-text guard of `processGenericFile` rejects a payload of exactly 100
characters (the threshold is a strict `> 100`) and accepts one of 101
characters. -/
theorem freeText_length_boundary (c : String) (hk : 2 ≤ transcriptIndicatorCount c) :
    (c.length = 100 → freeTextAccepts c = false) ∧
    (c.length = 101 → freeTextAccepts c = true) := by
  constructor
  · intro hl
    simp [freeTextAccepts, hl]
  · intro hl
    simp [freeTextAccepts, hl, looksLikeTranscript, hk]

/-- Witness for C7 at concrete 100- and 101-character payloads carrying the
keywords `speaker` and `time`. -/
theorem freeText_length_boundary_witness :
    freeTextAccepts kw100 = false ∧ freeTextAccepts kw101 = true :=
  ⟨(freeText_length_boundary kw100 (by decide)).1 (by decide),
   (freeText_length_boundary kw101 (by decide)).2 (by decide)⟩

/-- C10: `search` is pure and deterministic — as a state-passing operation it
returns the engine state unchanged (neither the episodes array nor any
segment is mutated), and a second invocation from the resulting state returns
the identical result sequence. -/
theorem search_pure_deterministic (st : SearchEngineState) (q : String) (o : SearchOptions) :
    (searchStateful st q o).2 = st ∧
    (searchStateful (searchStateful st q o).2 q o).1 = (searchStateful st q o).1 :=
  ⟨rfl, rfl⟩

/-- C2 counterexample: the raw record `{"text":"hi","timestamp":"abc"}` at
ordinal position 0 has its first (and only) timestamp alias present but
unparsable; the claim predicts a fallback timestamp of `0 * 5 = 0`, but the
emitted segment's timestamp is NaN (`parseFloat('abc')`), not `0`. -/
theorem normalizer_unparsable_timestamp_cex :
    (match extractSegments badTsData with
     | Except.ok l => l.map (fun s => s.timestamp)
     | Except.error _ => []) = [JSNum.nan] ∧
    JSNum.nan ≠ JSNum.val (qOfNat (5 * 0)) := by
  constructor
  · decide
  · decide

/-- C2 amended: the `ordinal * 5` fallback applies exactly when no timestamp
alias holds a truthy value (a present-but-falsy alias such as `0` or `""` is
skipped); when the alias cascade instead selects a truthy string, the
timestamp is whatever `parseFloat` returns on it — NaN when it is unparsable,
with no fallback to `ordinal * 5`. -/
theorem normalizer_timestamp_fallback (r : Json) (i : ℕ) :
    (¬ truthy (getF r "timestamp") ∧ ¬ truthy (getF r "time") ∧ ¬ truthy (getF r "start") ∧
        ¬ truthy (getF r "startTime") →
      resolveTimestamp r i = JSNum.val ((5 * i : ℕ) : ℚ)) ∧
    (∀ s : String, truthy (getF r "timestamp") → getF r "timestamp" = Json.str s →
      resolveTimestamp r i = parseFloatStr s) := by
  constructor
  · rintro ⟨h1, h2, h3, h4⟩
    simp only [resolveTimestamp, tsSelect, jsOr, h1, h2, h3, h4, if_false, Bool.false_eq_true,
      if_neg, jsParseFloatVal]
    rw [← qOfNat_eq]
  · intro s ht hs
    rw [hs] at ht
    simp [resolveTimestamp, tsSelect, jsOr, hs, ht, jsParseFloatVal]

/-- Witness for C2 amended: a record with no timestamp alias resolves to
`5 * 3` seconds at ordinal 3, and one whose `timestamp` alias is the string
`"abc"` resolves to NaN. -/
theorem normalizer_timestamp_fallback_witness :
    resolveTimestamp noTsRecord 3 = JSNum.val ((5 * 3 : ℕ) : ℚ) ∧
    resolveTimestamp (Json.obj [("text", Json.str "hi"), ("timestamp", Json.str "abc")]) 0 =
      parseFloatStr "abc" :=
  ⟨(normalizer_timestamp_fallback noTsRecord 3).1 (by decide),
   (normalizer_timestamp_fallback (Json.obj [("text", Json.str "hi"), ("timestamp", Json.str "abc")]) 0).2
     "abc" (by decide) rfl⟩

/-- C9 counterexample: the already-normalized record
`{id:"segment-1", text:"hi", timestamp:0}` sits at ordinal position 1 (it
originally arose from `{"text":"hi","timestamp":"0"}` there).  Re-running the
normalizer on it at the same position yields timestamp `1 * 5 = 5`, not the
original `0`: the numeric timestamp `0` is falsy, so the alias cascade skips
it. -/
theorem normalizer_idempotence_cex :
    (match extractSegments normalizedZeroTsData with
     | Except.ok l => l.map (fun s => s.timestamp)
     | Except.error _ => []) = [JSNum.val 0, JSNum.val 5] ∧
    JSNum.val 5 ≠ JSNum.val 0 := by
  constructor
  · decide
  · decide

/-- C9 amended: re-normalizing an already-normalized segment-shaped record at
the same ordinal position reproduces its text, timestamp and speaker,
provided the timestamp is truthy (a nonzero number; a zero or NaN timestamp
instead falls back to `ordinal * 5`).  The speaker is reproduced whether
absent (`undefined`) or any truthy value. -/
theorem normalizer_idempotent (idStr text : String) (ts : ℚ) (sp conf : Json) (i : ℕ)
    (htrim : trimS text = text) (hne : text ≠ "") (hts : ts ≠ 0)
    (hsp : sp = Json.undef ∨ truthy sp = true) :
    normalizeOne (normSegJson idStr text ts sp conf) i =
      Except.ok (some ⟨segId i, text, JSNum.val ts, sp, conf⟩) := by
  rcases hsp with h | h
  · subst h
    simp [normalizeOne, normSegJson, resolveText, resolveTimestamp, tsSelect, resolveSpeaker,
      getF, jsOr, truthy, jsParseFloatVal, hne, hts, htrim]
  · have h1 : truthy (Json.str text) = true := by simp [truthy, hne]
    have h2 : truthy (Json.num (JSNum.val ts)) = true := by simp [truthy, hts]
    have h3 : truthy Json.undef = false := rfl
    simp [normalizeOne, normSegJson, resolveText, resolveTimestamp, tsSelect, resolveSpeaker,
      getF, jsOr, jsParseFloatVal, h1, h2, h3, h, hne, htrim]

/-- Witness for C9 amended: the normalized record
`{id:"segment-2", text:"hello there", timestamp:7}` re-normalizes at
ordinal 2 to the same text, timestamp and (absent) speaker. -/
theorem normalizer_idempotent_witness :
    normalizeOne (normSegJson "segment-2" "hello there" 7 Json.undef Json.undef) 2 =
      Except.ok (some ⟨segId 2, "hello there", JSNum.val 7, Json.undef, Json.undef⟩) :=
  normalizer_idempotent "segment-2" "hello there" 7 Json.undef Json.undef 2
    (by decide) (by decide) (by decide) (Or.inl rfl)

/-- Two suffixes of one string are ordered by containment: if a name ends in
both `a` and `b` with `a` no longer than `b`, then `a` is a suffix of `b`. -/
theorem endsWith_both {n a b : String} (ha : strEndsWith n a = true)
    (hb : strEndsWith n b = true) (hlen : a.data.length ≤ b.data.length) :
    a.data.isSuffixOf b.data = true := by
  unfold strEndsWith at ha hb
  rw [List.isSuffixOf_iff_suffix] at ha hb ⊢
  exact List.suffix_of_suffix_length_le ha hb hlen

/-- C8 counterexample: a zero-byte `.sqlite` file with an empty declared type
is taken for a directory placeholder before the extension dispatch runs.  It
contributes zero episodes and exactly one error that references the file's
name, but the error is the directory message and does not state that SQLite
is unsupported (it does not even mention SQLite). -/
theorem sqlite_dispatch_cex :
    (processFiles [emptySqliteFile]).episodes.isEmpty = true ∧
    (processFiles [emptySqliteFile]).errors = [dirMsg "data.sqlite"] ∧
    strIncludes (dirMsg "data.sqlite") "data.sqlite" = true ∧
    strIncludes (dirMsg "data.sqlite") "SQLite" = false ∧
    dirMsg "data.sqlite" ≠ sqliteMsg "data.sqlite" := by
  refine ⟨by decide, by decide, by decide, by decide, by decide⟩

/-- Outcome of one `.sqlite`/`.db` file that is not a directory placeholder. -/
theorem sqliteFileOutcome (f : InputFile) (hdir : ¬ (f.type = "" ∧ f.size = 0))
    (hext : strEndsWith f.name ".sqlite" = true ∨ strEndsWith f.name ".db" = true) :
    processOneFile f = ⟨[], [sqliteMsg f.name], false⟩ := by
  have hzip : strEndsWith f.name ".zip" = false := by
    cases hc : strEndsWith f.name ".zip" with
    | false => rfl
    | true =>
      rcases hext with h | h
      · exact absurd (endsWith_both hc h (by decide)) (by decide)
      · exact absurd (endsWith_both h hc (by decide)) (by decide)
  have hjson : strEndsWith f.name ".json" = false := by
    cases hc : strEndsWith f.name ".json" with
    | false => rfl
    | true =>
      rcases hext with h | h
      · exact absurd (endsWith_both hc h (by decide)) (by decide)
      · exact absurd (endsWith_both h hc (by decide)) (by decide)
  have hplist : strEndsWith f.name ".plist" = false := by
    cases hc : strEndsWith f.name ".plist" with
    | false => rfl
    | true =>
      rcases hext with h | h
      · exact absurd (endsWith_both hc h (by decide)) (by decide)
      · exact absurd (endsWith_both h hc (by decide)) (by decide)
  have hxml : strEndsWith f.name ".xml" = false := by
    cases hc : strEndsWith f.name ".xml" with
    | false => rfl
    | true =>
      rcases hext with h | h
      · exact absurd (endsWith_both hc h (by decide)) (by decide)
      · exact absurd (endsWith_both h hc (by decide)) (by decide)
  rcases hext with h | h <;>
    simp [processOneFile, hdir, hzip, hjson, hplist, hxml, h]

/-- Batch processing distributes over concatenation of batches: no file's
outcome depends on the other files, so the remaining files are always
processed. -/
theorem processFiles_append (l1 l2 : List InputFile) :
    processFiles (l1 ++ l2) = mergeResults (processFiles l1) (processFiles l2) := by
  induction l1 with
  | nil => simp [processFiles, mergeResults]
  | cons f rest ih => simp [processFiles, mergeResults, ih]

/-- C8 amended: every `.sqlite`/`.db` file that is not mistaken for a
directory placeholder (empty declared type together with zero size)
contributes zero episodes, exactly one error — the SQLite-unsupported message
carrying the file's name — and its contents are never read (`readContent`
is false); and batch processing distributes over concatenation of batches, so
the remaining files of the batch are still processed exactly as they would be
alone. -/
theorem sqlite_dispatch :
    (∀ f : InputFile, ¬ (f.type = "" ∧ f.size = 0) →
      (strEndsWith f.name ".sqlite" = true ∨ strEndsWith f.name ".db" = true) →
      processOneFile f = ⟨[], [sqliteMsg f.name], false⟩) ∧
    (∀ l1 l2 : List InputFile,
      processFiles (l1 ++ l2) = mergeResults (processFiles l1) (processFiles l2)) :=
  ⟨sqliteFileOutcome, processFiles_append⟩

/-- Witness for C8 amended at a concrete non-empty `.sqlite` file and a
concrete two-batch split. -/
theorem sqlite_dispatch_witness :
    processOneFile realSqliteFile = ⟨[], [sqliteMsg "podcast.sqlite"], false⟩ ∧
    processFiles ([realSqliteFile] ++ [shortLinesFile]) =
      mergeResults (processFiles [realSqliteFile]) (processFiles [shortLinesFile]) :=
  ⟨sqlite_dispatch.1 realSqliteFile (by decide) (Or.inl (by decide)),
   sqlite_dispatch.2 [realSqliteFile] [shortLinesFile]⟩

/-- The decomposition computed by the highlight scanner loses no characters:
concatenating the raw pieces gives back the input. -/
theorem stripPieces_hlPiecesF (q : List Char) (ci : Bool) :
    ∀ (fuel : ℕ) (t : List Char), stripPieces (hlPiecesF q ci fuel t) = t := by
  intro fuel
  induction fuel with
  | zero => intro t; simp [hlPiecesF, stripPieces]
  | succ f ih =>
    intro t
    cases t with
    | nil => simp [hlPiecesF, stripPieces]
    | cons c rest =>
      by_cases h : foldCase ci q <+: foldCase ci (c :: rest)
      · simp only [hlPiecesF, if_pos h, stripPieces, List.flatMap_cons]
        rw [show ((hlPiecesF q ci f ((c :: rest).drop q.length)).flatMap fun p => p.2) =
            (c :: rest).drop q.length from ih _]
        exact List.take_append_drop _ _
      · simp only [hlPiecesF, if_neg h, stripPieces, List.flatMap_cons]
        rw [show ((hlPiecesF q ci f rest).flatMap fun p => p.2) = rest from ih _]
        rfl

/-- Every matched piece of the highlight decomposition is an occurrence of
the query: it equals the query up to the applicable case folding. -/
theorem hlPiecesF_matched (q : List Char) (ci : Bool) :
    ∀ (fuel : ℕ) (t : List Char) (p : Bool × List Char), p ∈ hlPiecesF q ci fuel t →
      p.1 = true → foldCase ci p.2 = foldCase ci q := by
  intro fuel
  induction fuel with
  | zero =>
    intro t p hp htrue
    simp [hlPiecesF] at hp
    subst hp
    simp at htrue
  | succ f ih =>
    intro t p hp htrue
    cases t with
    | nil => simp [hlPiecesF] at hp
    | cons c rest =>
      by_cases h : foldCase ci q <+: foldCase ci (c :: rest)
      · simp only [hlPiecesF, if_pos h, List.mem_cons] at hp
        rcases hp with hp | hp
        · subst hp
          have hlen : (foldCase ci q).length = q.length := by
            cases ci <;> simp [foldCase, toLowerL]
          have htake := List.prefix_iff_eq_take.mp h
          have hcomm : foldCase ci ((c :: rest).take q.length) =
              (foldCase ci (c :: rest)).take q.length := by
            cases ci <;> simp [foldCase, toLowerL, List.map_take]
          rw [hcomm, ← hlen, ← htake]
        · exact ih _ p hp htrue
      · simp only [hlPiecesF, if_neg h, List.mem_cons] at hp
        rcases hp with hp | hp
        · subst hp
          simp at htrue
        · exact ih _ p hp htrue

/-- Membership in a stable insertion is membership in the parts. -/
theorem mem_insertSorted {α} (lt : α → α → Bool) (a : α) :
    ∀ (l : List α) (z : α), z ∈ insertSorted lt a l ↔ z = a ∨ z ∈ l := by
  intro l
  induction l with
  | nil => intro z; simp [insertSorted]
  | cons x xs ih =>
    intro z
    by_cases h : lt x a = true
    · simp only [insertSorted, if_pos h, List.mem_cons, ih]
      try tauto
    · simp only [insertSorted, if_neg h, List.mem_cons]
      try tauto

/-- Membership in the sorted list is membership in the input. -/
theorem mem_insertionSort {α} (lt : α → α → Bool) :
    ∀ (l : List α) (z : α), z ∈ insertionSort lt l ↔ z ∈ l := by
  intro l
  induction l with
  | nil => intro z; simp [insertionSort]
  | cons x xs ih =>
    intro z
    simp only [insertionSort, mem_insertSorted, ih, List.mem_cons]

/-- C4: the highlighting operation only wraps spans, never rewrites them —
concatenating the raw pieces of the decomposition used by `highlightMatches`
reproduces the segment text exactly (so all characters outside matched spans
are byte-identical, and removing every inserted wrapper restores the
original text), and for a non-blank query `highlightMatches` is exactly the
rendering of that decomposition with the markup wrapper. -/
theorem highlight_round_trip (t q : String) (cs : Bool) :
    stripPieces (hlPieces t.data q.data (!cs)) = t.data ∧
    (trimS q ≠ "" →
      highlightMatches t q cs = ⟨renderPieces markWrap (hlPieces t.data q.data (!cs))⟩) := by
  constructor
  · unfold hlPieces
    by_cases h : q.data.isEmpty
    · simp [h, stripPieces]
    · simp only [h, if_false, Bool.false_eq_true]
      exact stripPieces_hlPiecesF _ _ _ _
  · intro h
    simp [highlightMatches, h]

/-- Witness for C4 at a concrete text and query. -/
theorem highlight_round_trip_witness :
    stripPieces (hlPieces "abc ABC".data "abc".data (!false)) = "abc ABC".data ∧
    highlightMatches "abc ABC" "abc" false =
      ⟨renderPieces markWrap (hlPieces "abc ABC".data "abc".data (!false))⟩ :=
  ⟨(highlight_round_trip "abc ABC" "abc" false).1,
   (highlight_round_trip "abc ABC" "abc" false).2 (by decide)⟩

/-- C5 counterexample: with `caseSensitive` set, highlighting is
case-sensitive, not case-insensitive.  The segment `"foo FOO"` matches the
query `"foo"` case-sensitively; the claim predicts a `highlightedText` that
wraps every case-insensitive occurrence (both `foo` and `FOO`), but the
search result wraps only the exact-case `foo`. -/
theorem search_highlight_cex :
    (searchEngineSearch mixedCaseCorpus "foo" ⟨true, false⟩).map (fun r => r.highlightedText) =
      ["<mark class=\"bg-yellow-200 dark:bg-yellow-600 px-1 rounded\">foo</mark> FOO"] ∧
    (⟨renderPieces markWrap (hlPieces "foo FOO".data "foo".data true)⟩ : String) =
      "<mark class=\"bg-yellow-200 dark:bg-yellow-600 px-1 rounded\">foo</mark> <mark class=\"bg-yellow-200 dark:bg-yellow-600 px-1 rounded\">FOO</mark>" ∧
    ("<mark class=\"bg-yellow-200 dark:bg-yellow-600 px-1 rounded\">foo</mark> FOO" : String) ≠
      "<mark class=\"bg-yellow-200 dark:bg-yellow-600 px-1 rounded\">foo</mark> <mark class=\"bg-yellow-200 dark:bg-yellow-600 px-1 rounded\">FOO</mark>" := by
  refine ⟨by decide, by decide, by decide⟩

/-- Every search result is the record built for one of the corpus segments:
its text is that segment's text and its `highlightedText` comes from
`highlightMatches` with that text, the raw query and the `caseSensitive`
option. -/
theorem search_result_shape (eps : List Episode) (q : String) (o : SearchOptions) :
    ∀ r ∈ searchEngineSearch eps q o, ∃ (epId : String) (seg : TranscriptSegment),
      r = ⟨seg.id, epId, seg.text, seg.timestamp, highlightMatches seg.text q o.caseSensitive⟩ := by
  intro r hr
  unfold searchEngineSearch at hr
  by_cases hq : trimS q = ""
  · rw [if_pos hq] at hr
    exact absurd hr (List.not_mem_nil r)
  · rw [if_neg hq] at hr
    rw [mem_insertionSort] at hr
    unfold searchRawResults at hr
    simp only [List.mem_flatMap, List.mem_filterMap] at hr
    rcases hr with ⟨ep, _hep, seg, _hseg, hmk⟩
    split at hmk <;> split at hmk <;>
      first
        | (simp only [Option.some.injEq] at hmk
           subst hmk
           exact ⟨ep.id, seg, rfl⟩)
        | exact absurd hmk (by simp)

/-- C5 amended: every search result's `highlightedText` is the text with
every occurrence of the regex-escaped literal query wrapped in highlight
markup, where occurrences are found without any word-boundary restriction
under every option combination, case-insensitively exactly when
`caseSensitive` is false and case-sensitively when it is true; every wrapped
span equals the literal query up to that case folding. -/
theorem search_highlight (eps : List Episode) (q : String) (o : SearchOptions) :
    ∀ r ∈ searchEngineSearch eps q o,
      r.highlightedText = highlightMatches r.text q o.caseSensitive ∧
      ∀ p ∈ hlPieces r.text.data q.data (!o.caseSensitive), p.1 = true →
        foldCase (!o.caseSensitive) p.2 = foldCase (!o.caseSensitive) q.data := by
  intro r hr
  obtain ⟨epId, seg, rfl⟩ := search_result_shape eps q o r hr
  constructor
  · rfl
  · intro p hp htrue
    unfold hlPieces at hp
    by_cases hqe : q.data.isEmpty
    · simp [hqe] at hp
      subst hp
      simp at htrue
    · simp only [hqe, if_false, Bool.false_eq_true] at hp
      exact hlPiecesF_matched _ _ _ _ p hp htrue

/-- Witness for C5 amended at the `mixedCaseCorpus` search result. -/
theorem search_highlight_witness :
    mixedCaseResult.highlightedText = highlightMatches mixedCaseResult.text "foo" true ∧
    ∀ p ∈ hlPieces mixedCaseResult.text.data "foo".data (!true), p.1 = true →
      foldCase (!true) p.2 = foldCase (!true) "foo".data :=
  search_highlight mixedCaseCorpus "foo" ⟨true, false⟩ mixedCaseResult (by decide)

/-- C6 counterexample: with the primary dict scan empty, the 25-character
string leaf `"aaaaaaa  bbbbbbb  ccccccc"` becomes a fallback segment although
it contains only 3 words: the code requires `split(' ').length > 3`, and the
double spaces contribute empty parts, so the "at least 4 words" condition of
the claim is not necessary for acceptance. -/
theorem plist_fallback_words_cex :
    (plistPrimarySegments threeWordDoc).isEmpty = true ∧
    ((extractTranscriptFromPlist threeWordDoc).getD []).map jsonTextField = [threeWordText] ∧
    wordCount threeWordText = 3 ∧ threeWordText.length > 20 := by
  refine ⟨by decide, by decide, by decide, by decide⟩

/-- C6 amended: whenever the primary dict scan yields zero segments, a string
leaf becomes a fallback segment only if its trimmed text is longer than 20
characters, splits on single spaces into more than 3 parts (empty parts from
consecutive spaces count, so this is weaker than "at least 4 words"), and
matches none of the URL, all-digits, all-caps and dotted-identifier
patterns. -/
theorem plist_fallback_filter (doc : XmlDoc) (hp : plistPrimarySegments doc = []) :
    ∀ j ∈ (extractTranscriptFromPlist doc).getD [], ∃ t : String,
      jsonTextField j = t ∧ 20 < t.length ∧ 3 < (splitCh ' ' t.data).length ∧
      urlPattern t = false ∧ allDigitsPattern t = false ∧ allCapsPattern t = false ∧
      dottedIdentPattern t = false := by
  intro j hj
  unfold extractTranscriptFromPlist at hj
  rw [hp] at hj
  simp only [List.isEmpty_nil, if_true] at hj
  by_cases hfb : (plistFallbackSegments doc).isEmpty
  · rw [if_pos hfb] at hj
    exact absurd hj (List.not_mem_nil j)
  · rw [if_neg hfb] at hj
    simp only [Option.getD_some] at hj
    unfold plistFallbackSegments at hj
    rw [List.mem_filterMap] at hj
    rcases hj with ⟨⟨i, os⟩, _hmem, hfm⟩
    cases os with
    | none => simp at hfm
    | some t0 =>
      simp only at hfm
      split at hfm
      · next hguard =>
        simp only [Option.some.injEq] at hfm
        subst hfm
        have h := hguard.2.2
        simp only [looksLikeTranscriptText, Bool.and_eq_true, decide_eq_true_eq,
          Bool.or_eq_true, not_or, Bool.not_eq_true] at h
        obtain ⟨⟨⟨⟨hu, hd⟩, hc⟩, hdt⟩, hparts⟩ := h
        exact ⟨trimS t0, by simp [jsonTextField, getF], hguard.2.1, hparts, hu, hd, hc, hdt⟩
      · simp at hfm

/-- Witness for C6 amended at the `threeWordDoc` fallback segment. -/
theorem plist_fallback_filter_witness :
    ∃ t : String, jsonTextField threeWordSeg = t ∧ 20 < t.length ∧
      3 < (splitCh ' ' t.data).length ∧ urlPattern t = false ∧ allDigitsPattern t = false ∧
      allCapsPattern t = false ∧ dottedIdentPattern t = false :=
  plist_fallback_filter threeWordDoc rfl threeWordSeg
    (by rw [show (extractTranscriptFromPlist threeWordDoc).getD [] = [threeWordSeg] from rfl]
        exact List.mem_singleton.mpr rfl)

/-- Stable insertion preserves pairwise orderedness under local conditions on
the comparator, relative to a predicate `P` holding for all elements. -/
theorem pairwise_insertSorted_P {α} (lt : α → α → Bool) (R : α → α → Prop) (P : α → Prop)
    (h1 : ∀ a x, P a → P x → lt x a = true → R x a)
    (h2 : ∀ a x, P a → P x → lt x a = false → R a x)
    (h3 : ∀ a x y, P a → P x → P y → lt x a = false → R x y → R a y) :
    ∀ (a : α) (l : List α), P a → (∀ x ∈ l, P x) → l.Pairwise R →
      (insertSorted lt a l).Pairwise R := by
  intro a l
  induction l with
  | nil =>
    intro _ _ _
    simp [insertSorted]
  | cons x xs ih =>
    intro hPa hPl hpw
    rw [List.pairwise_cons] at hpw
    obtain ⟨hx, hxs⟩ := hpw
    by_cases h : lt x a = true
    · simp only [insertSorted, if_pos h]
      rw [List.pairwise_cons]
      constructor
      · intro z hz
        rw [mem_insertSorted] at hz
        rcases hz with rfl | hz
        · exact h1 z x hPa (hPl x (by simp)) h
        · exact hx z hz
      · exact ih hPa (fun y hy => hPl y (by simp [hy])) hxs
    · simp only [insertSorted, if_neg h]
      rw [List.pairwise_cons]
      constructor
      · intro z hz
        rcases List.mem_cons.mp hz with rfl | hz
        · exact h2 a z hPa (hPl z (by simp)) (by simpa using h)
        · exact h3 a x z hPa (hPl x (by simp)) (hPl z (by simp [hz]))
            (by simpa using h) (hx z hz)
      · exact List.pairwise_cons.mpr ⟨hx, hxs⟩

/-- The stable insertion sort is pairwise ordered under the same local
comparator conditions. -/
theorem pairwise_insertionSort_P {α} (lt : α → α → Bool) (R : α → α → Prop) (P : α → Prop)
    (h1 : ∀ a x, P a → P x → lt x a = true → R x a)
    (h2 : ∀ a x, P a → P x → lt x a = false → R a x)
    (h3 : ∀ a x y, P a → P x → P y → lt x a = false → R x y → R a y) :
    ∀ l : List α, (∀ x ∈ l, P x) → (insertionSort lt l).Pairwise R := by
  intro l
  induction l with
  | nil =>
    intro _
    simp [insertionSort]
  | cons a rest ih =>
    intro hPl
    simp only [insertionSort]
    exact pairwise_insertSorted_P lt R P h1 h2 h3 a (insertionSort lt rest)
      (hPl a (by simp))
      (fun x hx => hPl x (by simp [(mem_insertionSort lt rest x).mp hx]))
      (ih (fun x hx => hPl x (by simp [hx])))

/-- The comparator reports `a` strictly before `b` on distinct match counts
exactly when `a` has more matches. -/
theorem cmpLt_count {sq : String} {ww : Bool} {a b : SearchResult}
    (hne : countMatches a.text sq ww ≠ countMatches b.text sq ww) :
    cmpLt sq ww a b = true ↔ countMatches b.text sq ww < countMatches a.text sq ww := by
  unfold cmpLt sortCompare
  rw [if_pos hne]
  rw [Rat.mkRat_one]
  constructor
  · intro h
    have h' := of_decide_eq_true h
    have : ((countMatches b.text sq ww : ℤ) - (countMatches a.text sq ww : ℤ) : ℚ) < 0 := by
      exact_mod_cast h'
    have : (countMatches b.text sq ww : ℤ) - (countMatches a.text sq ww : ℤ) < 0 := by
      exact_mod_cast this
    omega
  · intro h
    apply decide_eq_true
    have : (countMatches b.text sq ww : ℤ) - (countMatches a.text sq ww : ℤ) < 0 := by omega
    exact_mod_cast (show (((countMatches b.text sq ww : ℤ) - (countMatches a.text sq ww : ℤ) : ℤ) : ℚ) < 0 by exact_mod_cast this)

/-- On equal match counts the comparator defers to the timestamp difference:
it reports strictly-before exactly when both timestamps are actual numbers
and `a`'s is smaller. -/
theorem cmpLt_ts {sq : String} {ww : Bool} {a b : SearchResult}
    (heq : countMatches a.text sq ww = countMatches b.text sq ww) :
    cmpLt sq ww a b = true ↔ ∃ qa qb : ℚ, a.timestamp = JSNum.val qa ∧
      b.timestamp = JSNum.val qb ∧ qa < qb := by
  unfold cmpLt sortCompare
  rw [if_neg (by simp [heq])]
  cases hta : a.timestamp with
  | nan =>
    simp [jsSub]
  | val qa =>
    cases htb : b.timestamp with
    | nan => simp [jsSub]
    | val qb =>
      simp only [jsSub, qSub_eq]
      constructor
      · intro h
        exact ⟨qa, qb, rfl, rfl, by linarith [of_decide_eq_true h]⟩
      · rintro ⟨qa', qb', hqa, hqb, hlt⟩
        cases hqa
        cases hqb
        exact decide_eq_true (by linarith)

/-- `resultOrder` is transitive among results whose timestamps are actual
numbers. -/
theorem resultOrder_trans {sq : String} {ww : Bool} {a x y : SearchResult}
    (hPa : a.timestamp ≠ JSNum.nan) (hPx : x.timestamp ≠ JSNum.nan)
    (hPy : y.timestamp ≠ JSNum.nan)
    (hax : resultOrder sq ww a x) (hxy : resultOrder sq ww x y) :
    resultOrder sq ww a y := by
  obtain ⟨qa, hqa⟩ : ∃ q, a.timestamp = JSNum.val q := by
    cases h : a.timestamp with
    | nan => exact absurd h hPa
    | val q => exact ⟨q, rfl⟩
  obtain ⟨qx, hqx⟩ : ∃ q, x.timestamp = JSNum.val q := by
    cases h : x.timestamp with
    | nan => exact absurd h hPx
    | val q => exact ⟨q, rfl⟩
  obtain ⟨qy, hqy⟩ : ∃ q, y.timestamp = JSNum.val q := by
    cases h : y.timestamp with
    | nan => exact absurd h hPy
    | val q => exact ⟨q, rfl⟩
  unfold resultOrder at *
  rw [hqa, hqx] at hax
  rw [hqx, hqy] at hxy
  rw [hqa, hqy]
  simp only [tsLeB, decide_eq_true_eq] at *
  rcases hax with h | ⟨he1, h1⟩ <;> rcases hxy with h' | ⟨he2, h2⟩
  · exact Or.inl (lt_trans h' h)
  · exact Or.inl (he2 ▸ h)
  · exact Or.inl (he1 ▸ h')
  · exact Or.inr ⟨he1.trans he2, le_trans h1 h2⟩

/-- C3 counterexample: three segments each containing the query once, with
timestamps 7, NaN and 5 in corpus order.  All match counts are equal, yet the
search output keeps the order `7, NaN, 5`: the NaN timestamp makes every
comparator call against it return a non-negative value, so the stable sort
never reorders, and the result with timestamp 7 precedes the result with
timestamp 5 — refuting "results with equal match counts are ordered by
ascending timestamp". -/
theorem search_ranking_cex :
    (searchEngineSearch nanTsCorpus "ho" ⟨false, false⟩).map
        (fun r => (r.segmentId, r.timestamp)) =
      [("s1", JSNum.val 7), ("s2", JSNum.nan), ("s3", JSNum.val 5)] ∧
    (∀ r ∈ searchEngineSearch nanTsCorpus "ho" ⟨false, false⟩,
      countMatches r.text "ho" false = 1) ∧
    ¬ (searchEngineSearch nanTsCorpus "ho" ⟨false, false⟩).Pairwise (resultOrder "ho" false) := by
  refine ⟨by decide, by decide, by decide⟩

/-- C3 amended: the result sequence of `search` is always ordered by
descending per-segment match count as the primary key (a segment containing
the query twice precedes one containing it once, regardless of timestamps);
and whenever the corpus carries no NaN timestamps — in particular for any
corpus with real timing data — results with equal match counts are
additionally ordered by ascending timestamp. -/
theorem search_ranking (eps : List Episode) (q : String) (o : SearchOptions) :
    ((searchEngineSearch eps q o).Pairwise
      (countOrder (if o.caseSensitive then q else toLowerS q) o.wholeWords)) ∧
    ((∀ e ∈ eps, ∀ s ∈ e.transcript, s.timestamp ≠ JSNum.nan) →
      (searchEngineSearch eps q o).Pairwise
        (resultOrder (if o.caseSensitive then q else toLowerS q) o.wholeWords)) := by
  set sq := if o.caseSensitive then q else toLowerS q with hsq
  unfold searchEngineSearch
  by_cases hq : trimS q = ""
  · rw [if_pos hq]
    exact ⟨List.Pairwise.nil, fun _ => List.Pairwise.nil⟩
  · rw [if_neg hq]
    constructor
    · apply pairwise_insertionSort_P (cmpLt sq o.wholeWords) _ (fun _ => True)
      · intro a x _ _ hlt
        by_cases hne : countMatches a.text sq o.wholeWords = countMatches x.text sq o.wholeWords
        · exact le_of_eq hne
        · have := (cmpLt_count (by simpa [eq_comm] using hne)).mp hlt
          exact le_of_lt this
      · intro a x _ _ hlt
        by_cases hne : countMatches x.text sq o.wholeWords = countMatches a.text sq o.wholeWords
        · exact le_of_eq hne
        · have hc := cmpLt_count (a := x) (b := a) hne
          rw [hlt] at hc
          have hthis := mt hc.mpr (by simp)
          exact Nat.le_of_not_lt hthis
      · intro a x y _ _ _ hlt hxy
        have hax : countMatches x.text sq o.wholeWords ≤ countMatches a.text sq o.wholeWords := by
          by_cases hne : countMatches x.text sq o.wholeWords = countMatches a.text sq o.wholeWords
          · exact le_of_eq hne
          · have hc := cmpLt_count (a := x) (b := a) hne
            rw [hlt] at hc
            have := mt hc.mpr (by simp)
            omega
        exact le_trans hxy hax
      · intro x _
        trivial
    · intro hts
      have hP : ∀ r ∈ searchRawResults eps q o, r.timestamp ≠ JSNum.nan := by
        intro r hrm
        unfold searchRawResults at hrm
        simp only [List.mem_flatMap, List.mem_filterMap] at hrm
        rcases hrm with ⟨ep, hep, seg, hseg, hmk⟩
        split at hmk <;> split at hmk <;>
          first
            | (simp only [Option.some.injEq] at hmk
               subst hmk
               exact hts ep hep seg hseg)
            | exact absurd hmk (by simp)
      apply pairwise_insertionSort_P (cmpLt sq o.wholeWords) _
        (fun r => r.timestamp ≠ JSNum.nan) _ _ _ _ hP
      · intro a x hPa hPx hlt
        by_cases hne : countMatches x.text sq o.wholeWords = countMatches a.text sq o.wholeWords
        · obtain ⟨qx, qa, hqx, hqa, hxa⟩ := (cmpLt_ts hne).mp hlt
          exact Or.inr ⟨hne.symm ▸ rfl, by simp [tsLeB, hqx, hqa, le_of_lt hxa]⟩
        · exact Or.inl ((cmpLt_count hne).mp hlt)
      · intro a x hPa hPx hlt
        by_cases hne : countMatches x.text sq o.wholeWords = countMatches a.text sq o.wholeWords
        · obtain ⟨qa, hqa⟩ : ∃ qv, a.timestamp = JSNum.val qv := by
            cases h : a.timestamp with
            | nan => exact absurd h hPa
            | val qv => exact ⟨qv, rfl⟩
          obtain ⟨qx, hqx⟩ : ∃ qv, x.timestamp = JSNum.val qv := by
            cases h : x.timestamp with
            | nan => exact absurd h hPx
            | val qv => exact ⟨qv, rfl⟩
          refine Or.inr ⟨hne.symm, ?_⟩
          have hnot := (cmpLt_ts hne).not.mp (by simp [hlt])
          push_neg at hnot
          have := hnot qx qa hqx hqa
          simp [tsLeB, hqa, hqx]
          linarith
        · have hc := cmpLt_count (a := x) (b := a) hne
          rw [hlt] at hc
          have := mt hc.mpr (by simp)
          exact Or.inl (by omega)
      · intro a x y hPa hPx hPy hlt hxy
        have hax : resultOrder sq o.wholeWords a x := by
          by_cases hne : countMatches x.text sq o.wholeWords = countMatches a.text sq o.wholeWords
          · obtain ⟨qa, hqa⟩ : ∃ qv, a.timestamp = JSNum.val qv := by
              cases h : a.timestamp with
              | nan => exact absurd h hPa
              | val qv => exact ⟨qv, rfl⟩
            obtain ⟨qx, hqx⟩ : ∃ qv, x.timestamp = JSNum.val qv := by
              cases h : x.timestamp with
              | nan => exact absurd h hPx
              | val qv => exact ⟨qv, rfl⟩
            refine Or.inr ⟨hne.symm, ?_⟩
            have hnot := (cmpLt_ts hne).not.mp (by simp [hlt])
            push_neg at hnot
            have := hnot qx qa hqx hqa
            simp [tsLeB, hqa, hqx]
            linarith
          · have hc := cmpLt_count (a := x) (b := a) hne
            rw [hlt] at hc
            have := mt hc.mpr (by simp)
            exact Or.inl (by omega)
        exact resultOrder_trans hPa hPx hPy hax hxy

/-- Witness for C3 amended on a NaN-free corpus with differing match
counts. -/
theorem search_ranking_witness :
    (searchEngineSearch realTsCorpus "ho" ⟨false, false⟩).Pairwise
      (resultOrder (toLowerS "ho") false) :=
  (search_ranking realTsCorpus "ho" ⟨false, false⟩).2 (by decide)

/-- `createEpisodeFromSegments` never returns an episode with an empty
transcript: the zero-segment draft is discarded. -/
theorem createEpisodeFromSegments_ne (segments : List Json) (fn : String) (e : Episode)
    (h : createEpisodeFromSegments segments fn = Except.ok (some e)) : e.transcript ≠ [] := by
  unfold createEpisodeFromSegments at h
  cases hx : extractSegments (Json.obj [("segments", Json.arr segments)]) with
  | error u =>
    rw [hx] at h
    simp [Bind.bind, Except.bind] at h
  | ok ts =>
    rw [hx] at h
    simp only [Bind.bind, Except.bind] at h
    by_cases hemp : ts.isEmpty
    · simp [hemp] at h
    · simp only [hemp, if_false, Bool.false_eq_true, Except.ok.injEq, Option.some.injEq] at h
      rw [← h]
      simpa [List.isEmpty_iff] using hemp

/-- `extractEpisodeFromData` never returns an episode with an empty
transcript. -/
theorem extractEpisodeFromData_ne (data : Json) (fn : String) (e : Episode)
    (h : extractEpisodeFromData data fn = Except.ok (some e)) : e.transcript ≠ [] := by
  unfold extractEpisodeFromData at h
  cases hg : jsAccessGuard data with
  | error u =>
    rw [hg] at h
    simp [Bind.bind, Except.bind] at h
  | ok u =>
    rw [hg] at h
    simp only [Bind.bind, Except.bind] at h
    cases hx : extractSegments data with
    | error v =>
      rw [hx] at h
      simp at h
    | ok ts =>
      rw [hx] at h
      simp only at h
      by_cases hemp : ts.isEmpty
      · simp [hemp] at h
      · simp only [hemp, if_false, Bool.false_eq_true, Except.ok.injEq, Option.some.injEq] at h
        rw [← h]
        simpa [List.isEmpty_iff] using hemp

/-- `extractApplePodcastEpisode` never returns an episode with an empty
transcript. -/
theorem extractApplePodcastEpisode_ne (data : Json) (fn : String) (e : Episode)
    (h : extractApplePodcastEpisode data fn = Except.ok (some e)) : e.transcript ≠ [] := by
  unfold extractApplePodcastEpisode at h
  by_cases htd : truthy (jsOr (getF (jsOr (getF data "MTEpisode") (jsOr (getF data "episode") data)) "transcript")
      (jsOr (getF (jsOr (getF data "MTEpisode") (jsOr (getF data "episode") data)) "transcriptSegments")
        (jsOr (getF (jsOr (getF data "MTEpisode") (jsOr (getF data "episode") data)) "segments")
          (getF (jsOr (getF data "MTEpisode") (jsOr (getF data "episode") data)) "lines")))) = true
  · rw [if_neg (by simp [htd])] at h
    cases hx : extractSegments (Json.obj [("segments", _)]) with
    | error v =>
      rw [hx] at h
      simp [Bind.bind, Except.bind] at h
    | ok ts =>
      rw [hx] at h
      simp only [Bind.bind, Except.bind] at h
      by_cases hemp : ts.isEmpty
      · simp [hemp] at h
      · simp only [hemp, if_false, Bool.false_eq_true, Except.ok.injEq, Option.some.injEq] at h
        rw [← h]
        simpa [List.isEmpty_iff] using hemp
  · rw [if_pos (by simpa using htd)] at h
    simp at h

/-- The property scan of `parseJsonContent` never returns an episode with an
empty transcript. -/
theorem scanEntries_ne (fn : String) :
    ∀ (entries : List (String × Json)) (e : Episode),
      scanEntries entries fn = Except.ok (some e) → e.transcript ≠ [] := by
  intro entries
  induction entries with
  | nil =>
    intro e h
    simp [scanEntries] at h
  | cons kv rest ih =>
    intro e h
    unfold scanEntries at h
    rcases kv with ⟨k, value⟩
    cases value with
    | arr xs =>
      cases xs with
      | nil => exact ih e h
      | cons first tail =>
        simp only at h
        by_cases hto : typeofObject first = true
        · rw [if_pos hto] at h
          cases hg : jsAccessGuard first with
          | error u =>
            rw [hg] at h
            simp [Bind.bind, Except.bind] at h
          | ok u =>
            rw [hg] at h
            simp only [Bind.bind, Except.bind] at h
            by_cases hc : (truthy (getF first "text") = true ∨ truthy (getF first "content") = true)
            · rw [if_pos (by simpa using hc)] at h
              exact createEpisodeFromSegments_ne _ _ _ h
            · rw [if_neg (by simpa using hc)] at h
              exact ih e h
        · rw [if_neg hto] at h
          exact ih e h
    | str s => exact ih e h
    | num n => exact ih e h
    | bool b => exact ih e h
    | null => exact ih e h
    | undef => exact ih e h
    | obj kvs => exact ih e h

/-- The fall-through tail of `parseJsonContent` never returns an episode with
an empty transcript. -/
theorem parseJsonDataTail_ne (data : Json) (fn : String) (e : Episode)
    (h : parseJsonDataTail data fn = Except.ok (some e)) : e.transcript ≠ [] := by
  unfold parseJsonDataTail at h
  by_cases hts : (truthy (getF data "transcript") = true ∨ truthy (getF data "segments") = true ∨
      truthy (getF data "lines") = true)
  · rw [if_pos (by simpa using hts)] at h
    exact extractEpisodeFromData_ne _ _ _ h
  · rw [if_neg (by simpa using hts)] at h
    cases data with
    | arr xs =>
      cases xs with
      | nil => exact scanEntries_ne fn _ e h
      | cons first tail =>
        simp only at h
        cases hg : jsAccessGuard first with
        | error u =>
          rw [hg] at h
          simp [Bind.bind, Except.bind] at h
        | ok u =>
          rw [hg] at h
          simp only [Bind.bind, Except.bind] at h
          by_cases hc1 : (truthy (getF first "text") = true ∨ truthy (getF first "content") = true)
          · rw [if_pos (by simpa using hc1)] at h
            exact createEpisodeFromSegments_ne _ _ _ h
          · rw [if_neg (by simpa using hc1)] at h
            by_cases hc2 : (truthy (getF first "transcript") = true ∨
                truthy (getF first "segments") = true)
            · rw [if_pos (by simpa using hc2)] at h
              exact extractEpisodeFromData_ne _ _ _ h
            · rw [if_neg (by simpa using hc2)] at h
              exact scanEntries_ne fn _ e h
    | str s => exact scanEntries_ne fn _ e h
    | num n => exact scanEntries_ne fn _ e h
    | bool b => exact scanEntries_ne fn _ e h
    | null => exact scanEntries_ne fn _ e h
    | undef => exact scanEntries_ne fn _ e h
    | obj kvs => exact scanEntries_ne fn _ e h

/-- `parseJsonData` never returns an episode with an empty transcript: every
branch that produces an episode guards against zero segments. -/
theorem parseJsonData_ne (data : Json) (fn : String) (e : Episode)
    (h : parseJsonData data fn = Except.ok (some e)) : e.transcript ≠ [] := by
  unfold parseJsonData at h
  cases hg : jsAccessGuard data with
  | error u =>
    rw [hg] at h
    simp [Bind.bind, Except.bind] at h
  | ok u =>
    rw [hg] at h
    simp only [Bind.bind, Except.bind] at h
    by_cases hmt : (truthy (getF data "MTEpisode") = true ∨ truthy (getF data "episode") = true)
    · rw [if_pos (by simpa using hmt)] at h
      exact extractApplePodcastEpisode_ne _ _ _ h
    · rw [if_neg (by simpa using hmt)] at h
      cases hep : getF data "episodes" with
      | arr xs =>
        rw [hep] at h
        simp only [] at h
        cases hve : extractEpisodeFromData (xs.head?.getD Json.undef) fn with
        | error u =>
          rw [hve] at h
          simp at h
        | ok viaEp =>
          rw [hve] at h
          simp only at h
          cases viaEp with
          | some e' =>
            simp only [Except.ok.injEq, Option.some.injEq] at h
            subst h
            exact extractEpisodeFromData_ne _ _ _ hve
          | none => exact parseJsonDataTail_ne data fn e h
      | str s =>
        rw [hep] at h
        exact parseJsonDataTail_ne data fn e h
      | num n =>
        rw [hep] at h
        exact parseJsonDataTail_ne data fn e h
      | bool b =>
        rw [hep] at h
        exact parseJsonDataTail_ne data fn e h
      | null =>
        rw [hep] at h
        exact parseJsonDataTail_ne data fn e h
      | undef =>
        rw [hep] at h
        exact parseJsonDataTail_ne data fn e h
      | obj kvs =>
        rw [hep] at h
        exact parseJsonDataTail_ne data fn e h

/-- `parsePlistContent` never returns an episode with an empty transcript. -/
theorem parsePlistContent_ne (x : Option XmlDoc) (fn : String) (e : Episode)
    (h : parsePlistContent x fn = some e) : e.transcript ≠ [] := by
  unfold parsePlistContent at h
  cases x with
  | none => simp at h
  | some doc =>
    simp only at h
    cases htp : extractTranscriptFromPlist doc with
    | some tdata =>
      rw [htp] at h
      simp only [] at h
      cases hce : createEpisodeFromSegments tdata fn with
      | error u =>
        rw [hce] at h
        simp at h
      | ok r =>
        rw [hce] at h
        simp only at h
        cases r with
        | none => simp at h
        | some e' =>
          simp only [Option.some.injEq] at h
          subst h
          exact createEpisodeFromSegments_ne _ _ _ hce
    | none =>
      rw [htp] at h
      simp only [] at h
      by_cases hlen : (doc.strings.enum.filterMap (fun p =>
          match p.2 with
          | some t0 =>
            let t := trimS t0
            if t ≠ "" ∧ t.length > 20 then
              some (Json.obj
                [("id", Json.str (segId p.1)),
                 ("text", Json.str t),
                 ("timestamp", Json.num (JSNum.val (qOfNat (5 * p.1))))])
            else none
          | none => none)).length > 0
      · rw [if_pos hlen] at h
        cases hce : createEpisodeFromSegments (doc.strings.enum.filterMap (fun p =>
            match p.2 with
            | some t0 =>
              let t := trimS t0
              if t ≠ "" ∧ t.length > 20 then
                some (Json.obj
                  [("id", Json.str (segId p.1)),
                   ("text", Json.str t),
                   ("timestamp", Json.num (JSNum.val (qOfNat (5 * p.1))))])
              else none
            | none => none)) fn with
        | error u =>
          rw [hce] at h
          simp at h
        | ok r =>
          rw [hce] at h
          simp only at h
          cases r with
          | none => simp at h
          | some e' =>
            simp only [Option.some.injEq] at h
            subst h
            exact createEpisodeFromSegments_ne _ _ _ hce
      · rw [if_neg hlen] at h
        simp at h

/-- `parseJsonContent` never returns an episode with an empty transcript. -/
theorem parseJsonContent_ne (j : Option Json) (fn : String) (e : Episode)
    (h : parseJsonContent j fn = some e) : e.transcript ≠ [] := by
  unfold parseJsonContent at h
  cases j with
  | none => simp at h
  | some data =>
    simp only at h
    cases hp : parseJsonData data fn with
    | error u =>
      rw [hp] at h
      simp at h
    | ok r =>
      rw [hp] at h
      simp only at h
      cases r with
      | none => simp at h
      | some e' =>
        simp only [Option.some.injEq] at h
        subst h
        exact parseJsonData_ne _ _ _ hp

/-- Episodes surfaced from a ZIP container always have non-empty
transcripts: the JSON and plist detectors guard internally and the text path
is guarded explicitly (`episode.transcript.length > 0`). -/
theorem processZipFile_ne (z : Option (List ZipEntry)) (e : Episode)
    (h : e ∈ (processZipFile z).episodes) : e.transcript ≠ [] := by
  unfold processZipFile at h
  cases z with
  | none => simp at h
  | some entries =>
    simp only [List.mem_flatMap, List.mem_filter] at h
    rcases h with ⟨entry, _hentry, hmem⟩
    unfold processZipEntry at hmem
    by_cases h1 : strEndsWith entry.name ".json" = true
    · rw [if_pos h1] at hmem
      cases hj : parseJsonContent entry.payload.json entry.name with
      | none =>
        rw [hj] at hmem
        simp [Option.toList] at hmem
      | some e' =>
        rw [hj] at hmem
        simp only [Option.toList_some, List.mem_singleton] at hmem
        subst hmem
        exact parseJsonContent_ne _ _ _ hj
    · rw [if_neg h1] at hmem
      by_cases h2 : (strEndsWith entry.name ".plist" || strEndsWith entry.name ".xml") = true
      · rw [if_pos h2] at hmem
        cases hp : parsePlistContent entry.payload.xml entry.name with
        | none =>
          rw [hp] at hmem
          simp [Option.toList] at hmem
        | some e' =>
          rw [hp] at hmem
          simp only [Option.toList_some, List.mem_singleton] at hmem
          subst hmem
          exact parsePlistContent_ne _ _ _ hp
      · rw [if_neg h2] at hmem
        by_cases h3 : (strIncludes entry.name "transcript" ||
            looksLikeTranscript entry.payload.raw) = true
        · rw [if_pos h3] at hmem
          by_cases h4 : (createEpisodeFromText entry.payload.raw entry.name).transcript.length > 0
          · rw [if_pos h4] at hmem
            rw [List.mem_singleton] at hmem
            subst hmem
            intro hnil
            rw [hnil] at h4
            simp at h4
          · rw [if_neg h4] at hmem
            simp at hmem
        · rw [if_neg h3] at hmem
          simp at hmem

set_option maxRecDepth 8000 in
/-- C1 counterexample: a 117-character text file whose lines all trim to at
most 10 characters passes the free-text keyword check, so
`processGenericFile` surfaces the episode built by `createEpisodeFromText` —
which has resolved zero segments.  The batch result hands the caller exactly
one episode, and its transcript is empty. -/
theorem extractor_nonempty_cex :
    (processFiles [shortLinesFile]).episodes.map (fun e => e.transcript.isEmpty) = [true] ∧
    ¬ (∀ e ∈ (processFiles [shortLinesFile]).episodes, e.transcript.isEmpty = false) := by
  refine ⟨by decide, by decide⟩

/-- C1 amended: episodes produced by the structured-data detector, by the
markup/plist detector and by archive-entry processing always carry a
non-empty transcript (zero-segment drafts are discarded on those paths); the
guard is missing only on the direct-file free-text path, where
`processGenericFile` can surface an empty-transcript episode. -/
theorem extractor_nonempty_guards :
    (∀ (j : Option Json) (fn : String) (e : Episode),
      parseJsonContent j fn = some e → e.transcript ≠ []) ∧
    (∀ (x : Option XmlDoc) (fn : String) (e : Episode),
      parsePlistContent x fn = some e → e.transcript ≠ []) ∧
    (∀ (z : Option (List ZipEntry)) (e : Episode),
      e ∈ (processZipFile z).episodes → e.transcript ≠ []) :=
  ⟨parseJsonContent_ne, parsePlistContent_ne, processZipFile_ne⟩

/-- Witness for C1 amended at a concrete one-line JSON document. -/
theorem extractor_nonempty_guards_witness : oneLineEpisode.transcript ≠ [] :=
  extractor_nonempty_guards.1 (some oneLineJson) "a.json" oneLineEpisode rfl

end PodTranscript
